import Mathlib

/-!
Verification of the boa configuration library (TOML / JSON5 parsing,
format-preserving re-encoding, and the reflective binding engine).

The Lean definitions below are a shallow embedding of the Go sources:

* syntax layer (syntax/lex.go, syntax/parse.go): cursors, tokens, the
  first-child/next-sibling parse tree, and replay-mode marshaling;
* the TOML parser (encoding/toml parser sources) embedded at the token
  level: the parser state machine is translated faithfully, consuming a
  list of tokens that stands for the lexer output; token start cursors
  are computed by the same per-rune line/column advance rule as the
  lexer (newline increments the line and resets the column);
* the naming conventions (encoding/naming.go), restricted to ASCII
  input, where the Go unicode classification and Lean Char functions
  agree, and where every rune has byte width one;
* the binding engine (internal/reflectutil): SetScalar, unmarshal, Set,
  VisibleFields, UnmarshalText and PopulateFromEnv over an explicit
  model of the Go value universe that the claims exercise;
* the fresh-mode TOML marshaler (reflectutil.Marshal plus the TOML
  marshaler callbacks).

Machine integers follow the Go semantics explicitly: reflect.Value.SetInt
and SetUint store the low bits of the 64-bit argument, which is modeled
with explicit reduction modulo 2 ^ width.
-/

namespace Boa

/-- syntax.Cursor: line and column, both starting at 1. -/
structure Cursor where
  line : Nat
  column : Nat
deriving Repr, DecidableEq

/-- Token types of the shared syntax package together with the
TOML-specific and JSON5-specific punctuation types. -/
inductive TokenType where
  | eof
  | error
  | comment
  | inlineComment
  | str
  | number
  | bool
  | identifier
  | nil
  | newline
  | whitespace
  | equal
  | dot
  | comma
  | lbrace
  | rbrace
  | lsquare
  | rsquare
  | doubleLSquare
  | doubleRSquare
  | datetime
  | colon
  | plus
  | minus
deriving Repr, DecidableEq

/-- Model of go/constant.Value restricted to the kinds the claims
exercise: arbitrary-precision integers and rationals. -/
inductive ConstVal where
  | intc (v : Int)
  | ratc (q : Rat)
deriving Repr, DecidableEq

/-- The interpreted value carried by a token (Token.Value). -/
inductive TokValue where
  | none
  | str (s : String)
  | num (v : ConstVal)
  | bool (b : Bool)
deriving Repr, DecidableEq

/-- syntax.Token: type, raw text and start cursor (the end cursor is not
needed by the claims). -/
structure Token where
  type : TokenType
  raw : String
  value : TokValue
  start : Cursor
deriving Repr, DecidableEq

/-- Advance a cursor over one rune, as Lexer.ReadRune does: a newline
increments the line and resets the column to 1. -/
def advanceCursor (c : Cursor) (r : Char) : Cursor :=
  if r = '\n' then { line := c.line + 1, column := 1 }
  else { line := c.line, column := c.column + 1 }

/-- Advance a cursor over a whole raw token text. -/
def advanceCursorStr (c : Cursor) (s : String) : Cursor :=
  s.data.foldl advanceCursor c

/-- Lay out a list of (type, raw, value) triples as tokens with start
cursors assigned the way the lexer assigns them, starting at 1:1. -/
def layoutFrom (c : Cursor) : List (TokenType × String × TokValue) → List Token
  | [] => []
  | (t, raw, v) :: rest =>
    { type := t, raw := raw, value := v, start := c } :: layoutFrom (advanceCursorStr c raw) rest

def layout (l : List (TokenType × String × TokValue)) : List Token :=
  layoutFrom { line := 1, column := 1 } l

/-- Concatenation of the raw texts of a token list; by the lexer
invariant this is exactly the slice of source text the tokens cover. -/
def concatRaw (toks : List Token) : String :=
  toks.foldl (fun acc t => acc ++ t.raw) ""

/-! ## Naming conventions (encoding/naming.go)

The Go implementation reads the input rune by rune keeping the previous
rune, a byte index i, the FULL-CAPS flag and the flag recording whether
an uppercase rune was written at the last word boundary.  The model
restricts inputs to ASCII, where Char.isUpper, Char.isLower, Char.isDigit,
Char.toUpper and Char.toLower agree with the unicode package and every
rune has byte width one. -/

/-- One step of baseConvention.Format: the per-rune function returns the
transformed rune and an optional separator (rune 0 in Go meaning none). -/
def ConventionFn := Char → Nat → Bool → Bool → Bool → Char × Option Char

/-- The loop of baseConvention.Format. The arguments mirror the Go local
variables prev, wupper, i and the output builder. -/
def formatLoop (fn : ConventionFn) : List Char → Char → Bool → Nat → String → String
  | [], _, _, _, out => out
  | r :: rest, prev, wupper, i, out =>
    let next := match rest with
      | [] => r
      | n :: _ => n
    let boundary : Bool :=
      if i == 0 then true
      else if r.isDigit != prev.isDigit then true
      else if prev.isLower && r.isUpper then true
      else if r.isUpper && next.isLower then true
      else false
    let upper : Bool := r.isUpper && prev.isUpper
    let (tr, sep) := fn r i boundary upper wupper
    let out1 := match sep with
      | some c => (out.push c).push tr
      | none => out.push tr
    let wupper1 := if boundary then tr.isUpper else wupper
    formatLoop fn rest r wupper1 (i + 1) out1

/-- baseConvention.Format. The initial prev is the zero rune. -/
def conventionFormat (fn : ConventionFn) (s : String) : String :=
  formatLoop fn s.data (Char.ofNat 0) false 0 ""

/-- The rune function produced by camelCase(name, sep, capitalizeFirst). -/
def camelRune (sep : Option Char) (capitalizeFirst : Bool) : ConventionFn :=
  fun r i boundary upper wupper =>
    let f := if (upper && wupper) || (boundary && (capitalizeFirst || i != 0)) then
      Char.toUpper else Char.toLower
    let sc := if boundary && i != 0 then sep else none
    (f r, sc)

/-- The rune function produced by constantCase(name, sep, screaming). -/
def constantRune (sep : Option Char) (screaming : Bool) : ConventionFn :=
  fun r i boundary _ _ =>
    let f := if screaming then Char.toUpper else Char.toLower
    let sc := if boundary && i != 0 then sep else none
    (f r, sc)

/-- encoding.CamelCase. -/
def camelCaseFormat (s : String) : String :=
  conventionFormat (camelRune none false) s

/-- encoding.KebabCase. -/
def kebabCaseFormat (s : String) : String :=
  conventionFormat (constantRune (some '-') false) s

/-- encoding.SnakeCase. -/
def snakeCaseFormat (s : String) : String :=
  conventionFormat (constantRune (some '_') false) s

/-- encoding.ScreamingSnakeCase. -/
def screamingSnakeCaseFormat (s : String) : String :=
  conventionFormat (constantRune (some '_') true) s

/-! ## Parse tree (syntax/parse.go) -/

/-- syntax.NodeType (plus the TOML-specific key-path and datetime types). -/
inductive NodeType where
  | document
  | map
  | list
  | str
  | number
  | bool
  | nil
  | keypath
  | datetime
deriving Repr, DecidableEq

/-- A component of a TOML key path: a string segment or a synthetic
integer index appended for successive array-of-table entries. -/
inductive PathElem where
  | str (s : String)
  | idx (i : Int)
deriving Repr, DecidableEq

/-- The interpreted value of a node (Node.Value). -/
inductive NodeValue where
  | none
  | str (s : String)
  | num (v : ConstVal)
  | bool (b : Bool)
  | path (p : List PathElem)
deriving Repr, DecidableEq

/-- syntax.Node: a first-child/next-sibling tree where every node keeps
the tokens lexed for it (Tokens) and the trailing tokens that appear
after its children (Suffix). -/
inductive Node where
  | mk (type : NodeType) (value : NodeValue) (position : Cursor)
       (tokens : List Token) (suffix : List Token)
       (child : Option Node) (sibling : Option Node)

def Node.type : Node → NodeType
  | .mk t _ _ _ _ _ _ => t

def Node.value : Node → NodeValue
  | .mk _ v _ _ _ _ _ => v

def Node.position : Node → Cursor
  | .mk _ _ p _ _ _ _ => p

def Node.tokens : Node → List Token
  | .mk _ _ _ ts _ _ _ => ts

def Node.suffix : Node → List Token
  | .mk _ _ _ _ sf _ _ => sf

def Node.child : Node → Option Node
  | .mk _ _ _ _ _ c _ => c

def Node.sibling : Node → Option Node
  | .mk _ _ _ _ _ _ s => s

/-- Replace the sibling pointer of a node. -/
def Node.withSibling : Node → Option Node → Node
  | .mk t v p ts sf c _, s => .mk t v p ts sf c s

/-- Append tokens to the Suffix list of a node. -/
def Node.appendSuffix : Node → List Token → Node
  | .mk t v p ts sf c s, more => .mk t v p ts (sf ++ more) c s

/-- Chain a list of nodes into a sibling chain (the functional image of
the **prev pointer appends performed by the parsers). -/
def chainNodes : List Node → Option Node
  | [] => none
  | n :: rest => some (n.withSibling (chainNodes rest))

/-- Node.Marshal driven by the TOML replay marshaler: MarshalNode writes
the raw text of every token in Tokens, the walk recurses into the child
chain, and MarshalNodePost writes the raw text of every token in Suffix;
siblings follow. -/
def Node.replay : Node → String
  | .mk _ _ _ tokens suffix child sibling =>
    concatRaw tokens ++
      (match child with
        | Option.none => ""
        | Option.some c => c.replay) ++
      concatRaw suffix ++
      (match sibling with
        | Option.none => ""
        | Option.some s => s.replay)

/-- The list of nodes of a sibling chain, starting at this node. -/
def Node.siblingList : Node → List Node
  | .mk t v p ts sf c s =>
    Node.mk t v p ts sf c s ::
      (match s with
        | Option.none => []
        | Option.some n => n.siblingList)

/-- Flatten a first-child option into the list of sibling-chained nodes. -/
def nodeList : Option Node → List Node
  | Option.none => []
  | Option.some n => n.siblingList

/-! ## TOML parser (token level)

The embedding consumes a list of tokens standing for the lexer output of
the document, mirroring parser.Parse, parser.Key, parser.Value,
parser.Object and parser.List from the TOML parser source.  Recursion is
fuel-bounded; the claims evaluate the parser on concrete inputs where the
fuel is ample. -/

/-- toml.DuplicateKeyError: kind label, prefix and path of the
conflicting construct, and the position of the original definition. -/
structure DuplicateKeyError where
  kind : String
  pfix : List PathElem
  path : List PathElem
  position : Cursor
deriving Repr, DecidableEq

/-- Parse errors: a positioned lexer error, an unexpected-token error
carrying the acceptable alternatives, a duplicate-key error, the
multiline-key error, a Go panic, or fuel exhaustion (never reached on
the concrete inputs of the claims). -/
inductive PErr where
  | duplicate (e : DuplicateKeyError)
  | lexError (pos : Cursor)
  | unexpected (expected : List TokenType) (pos : Cursor)
  | multilineKey (pos : Cursor)
  | goPanic (msg : String)
  | fuel
deriving Repr, DecidableEq

/-- Parser token-stream state: the remaining tokens and the one-token
pushback slot p.prev used to split double-bracket tokens. -/
structure PState where
  toks : List Token
  prevTok : Option Token
deriving Repr

/-- The token the lexer reports at end of input. -/
def eofToken : Token :=
  { type := .eof, raw := "", value := .none, start := { line := 0, column := 0 } }

/-- Inner loop of parser.Next over the remaining token list: tokens of
the allowed types are collected, an error token aborts, and the first
other token is returned. -/
def pNextList (allowed : List TokenType) :
    List Token → List Token → Except PErr (Token × List Token × List Token)
  | [], acc => .ok (eofToken, acc, [])
  | t :: rest, acc =>
    if t.type = .error then .error (.lexError t.start)
    else if allowed.contains t.type then pNextList allowed rest (acc ++ [t])
    else .ok (t, acc, rest)

/-- parser.Next: drains the pushback slot first, then the token list.
Returns the significant token, the collected allowed tokens (which the
caller appends to some node token list) and the new state. -/
def pNext (st : PState) (allowed : List TokenType) :
    Except PErr (Token × List Token × PState) :=
  match st.prevTok with
  | Option.some t =>
    if t.type = .error then .error (.lexError t.start)
    else if allowed.contains t.type then
      match pNextList allowed st.toks [t] with
      | .error e => .error e
      | .ok (tok, acc, rest) => .ok (tok, acc, { toks := rest, prevTok := Option.none })
    else .ok (t, [], { toks := st.toks, prevTok := Option.none })
  | Option.none =>
    match pNextList allowed st.toks [] with
    | .error e => .error e
    | .ok (tok, acc, rest) => .ok (tok, acc, { toks := rest, prevTok := Option.none })

/-- go binary big-endian encoding of an int64, as eight characters. -/
def int64BE (v : Int) : String :=
  let u := (((v % (2 ^ 64 : Int)) + 2 ^ 64) % 2 ^ 64).toNat
  String.mk ((List.range 8).map (fun j => Char.ofNat ((u >>> (8 * (7 - j))) % 256)))

/-- toml digest of one key path: strings are NUL-terminated, integers
are written as big-endian int64 bytes. -/
def digest1 (p : List PathElem) : String :=
  p.foldl
    (fun acc e =>
      match e with
      | .str s => (acc ++ s).push (Char.ofNat 0)
      | .idx i => acc ++ int64BE i) ""

/-- toml digest of two concatenated key paths (the variadic call sites
pass the current table path followed by the local path). -/
def digest2 (a b : List PathElem) : String :=
  digest1 (a ++ b)

/-- The Table registry entry of the TOML parser. The zero value models
the Go map read of a missing key. -/
structure RegEntry where
  defAt : Cursor := { line := 0, column := 0 }
  idx : Int := 0
  array : Bool := false
  inlined : Bool := false
  explicit : Bool := false
  kind : String := ""
deriving Repr, DecidableEq

/-- The key registries (knownkeys / knownkeyslocal), as association
lists where the most recent binding shadows older ones. -/
abbrev KeyReg := List (String × RegEntry)

def regFind (m : KeyReg) (k : String) : Option RegEntry :=
  (m.find? (fun e => e.1 = k)).map (fun e => e.2)

def regGet (m : KeyReg) (k : String) : RegEntry :=
  (regFind m k).getD {}

def regSet (m : KeyReg) (k : String) (v : RegEntry) : KeyReg :=
  (k, v) :: m

/-- Merging the local registry into the global one at a table-header
boundary: every (key, entry) binding of the local registry is stored
into the global registry (newest local binding last, so it wins). -/
def regMerge (g l : KeyReg) : KeyReg :=
  l.reverse.foldl (fun acc e => regSet acc e.1 e.2) g

/-- Result of parser.Key: the tokens appended to key.Tokens, the
delimiter token appended to key.Suffix, the interpreted path value, and
the stream state. -/
structure KeyRes where
  ktokens : List Token
  ksuffix : List Token
  path : List PathElem
  st : PState
deriving Repr

/-- parser.Key: reads a dotted key until the delimiter. Identifier and
string tokens contribute one path segment; number and bool tokens are
split on dots; the dot tokens themselves are not retained, and the
delimiter token lands in key.Suffix, exactly as in the source. -/
def pKey (fuel : Nat) (st : PState) (tok : Token) (delim : TokenType)
    (tokens : List Token) (path : List PathElem) : Except PErr KeyRes :=
  match fuel with
  | 0 => .error .fuel
  | fuel + 1 =>
    let seg : Except PErr (List Token × List PathElem) :=
      match tok.type with
      | .identifier | .str =>
        match tok.value with
        | .str s => .ok (tokens ++ [tok], path ++ [.str s])
        | _ => .error (.goPanic "token value is not a string")
      | .number | .bool =>
        .ok (tokens ++ [tok], path ++ (tok.raw.splitOn ".").map PathElem.str)
      | _ => .error (.unexpected [.identifier, .str] tok.start)
    match seg with
    | .error e => .error e
    | .ok (tokens, path) =>
      if tok.raw.data.any (fun r => r = '\r' || r = '\n') then
        .error (.multilineKey tok.start)
      else
        match pNext st [.whitespace] with
        | .error e => .error e
        | .ok (t2, coll, st2) =>
          let tokens := tokens ++ coll
          if t2.type = delim then
            .ok { ktokens := tokens, ksuffix := [t2], path := path, st := st2 }
          else if t2.type ≠ .dot then
            .error (.unexpected [.dot, delim] t2.start)
          else
            match pNext st2 [.whitespace] with
            | .error e => .error e
            | .ok (t3, coll2, st3) => pKey fuel st3 t3 delim (tokens ++ coll2) path

/-- The double-square-bracket fixup of parser.Value and parser.List: the
token is split in two single brackets and the second half is pushed
back, its start column shifted one to the right. -/
def splitDouble (single : TokenType) (raw : String) (tok : Token) (st : PState) :
    Token × PState :=
  let tok1 : Token := { tok with type := single, raw := raw }
  let nextTok : Token :=
    { tok1 with start := { tok1.start with column := tok1.start.column + 1 } }
  (tok1, { st with prevTok := Option.some nextTok })

mutual

/-- parser.Value: dispatches on the significant token. pre holds the
tokens already collected into the value node. -/
def pValue (fuel : Nat) (st : PState) (tok : Token) (pre : List Token) :
    Except PErr (Node × PState) :=
  match fuel with
  | 0 => .error .fuel
  | fuel + 1 =>
    match tok.type with
    | .lbrace => pObject fuel st tok pre
    | .doubleLSquare =>
      let (tok1, st1) := splitDouble .lsquare "[" tok st
      pList fuel st1 tok1 pre
    | .lsquare => pList fuel st tok pre
    | .str =>
      match tok.value with
      | .str s => .ok (.mk .str (.str s) tok.start (pre ++ [tok]) [] Option.none Option.none, st)
      | _ => .error (.goPanic "token value is not a string")
    | .number =>
      match tok.value with
      | .num v => .ok (.mk .number (.num v) tok.start (pre ++ [tok]) [] Option.none Option.none, st)
      | _ => .error (.goPanic "token value is not a number")
    | .bool =>
      match tok.value with
      | .bool b => .ok (.mk .bool (.bool b) tok.start (pre ++ [tok]) [] Option.none Option.none, st)
      | _ => .error (.goPanic "token value is not a bool")
    | .datetime =>
      .ok (.mk .datetime .none tok.start (pre ++ [tok]) [] Option.none Option.none, st)
    | .error => .error (.lexError tok.start)
    | _ => .error (.unexpected [] tok.start)

/-- parser.Object: an inline table. The seen map is created afresh for
this call, so the duplicate check is scoped to this single inline table.
Entries collect as (key data, value node) pairs; the closing brace is
appended to the suffix of the last value node (or of the table node when
the table is empty), and comma tokens are dropped, as in the source. -/
def pObject (fuel : Nat) (st : PState) (tok : Token) (pre : List Token) :
    Except PErr (Node × PState) :=
  match fuel with
  | 0 => .error .fuel
  | fuel + 1 =>
    match pNext st [.whitespace, .comment] with
    | .error e => .error e
    | .ok (t, coll, st1) =>
      pObjectLoop fuel st1 t (pre ++ [tok] ++ coll) [] [] []

/-- The loop of parser.Object. seen maps key digests to the position of
the first occurrence; entries holds completed (key node, value node)
pairs. -/
def pObjectLoop (fuel : Nat) (st : PState) (t : Token) (nodeToks : List Token)
    (seen : List (String × Cursor)) (entries : List (Node × Node))
    (keyPre : List Token) : Except PErr (Node × PState) :=
  match fuel with
  | 0 => .error .fuel
  | fuel + 1 =>
    if t.type = .rbrace then
      -- last.Suffix gets the closing brace: last is the value node of the
      -- final entry, or the table node itself when there are none.
      match entries.reverse with
      | [] =>
        .ok (.mk .map .none { line := 0, column := 0 } nodeToks [t] Option.none Option.none, st)
      | (k, v) :: restRev =>
        let entries := ((k, v.appendSuffix [t]) :: restRev).reverse
        -- attach each value node as the child of its key node and chain
        let keyNodes := entries.map (fun e =>
          match e.1 with
          | .mk ty v2 p ts sf _ _ => Node.mk ty v2 p ts sf (Option.some e.2) Option.none)
        .ok (.mk .map .none { line := 0, column := 0 } nodeToks []
              (chainNodes keyNodes) Option.none, st)
    else
      match pKey fuel st t .equal keyPre [] with
      | .error e => .error e
      | .ok kr =>
        let pos := t.start
        let kd := digest1 kr.path
        match (seen.find? (fun e => e.1 = kd)).map (fun e => e.2) with
        | Option.some firstPos =>
          .error (.duplicate
            { kind := "key", pfix := [], path := kr.path, position := firstPos })
        | Option.none =>
          let seen := (kd, pos) :: seen
          match pNext kr.st [.whitespace, .comment] with
          | .error e => .error e
          | .ok (vt, vcoll, st2) =>
            match pValue fuel st2 vt vcoll with
            | .error e => .error e
            | .ok (vnode, st3) =>
              match pNext st3 [.whitespace, .comment] with
              | .error e => .error e
              | .ok (t4, coll4, st4) =>
                let vnode := vnode.appendSuffix coll4
                let keyNode : Node :=
                  .mk .keypath (.path kr.path) pos kr.ktokens kr.ksuffix
                    Option.none Option.none
                if t4.type = .comma then
                  match pNext st4 [.whitespace, .comment] with
                  | .error e => .error e
                  | .ok (t5, coll5, st5) =>
                    if t5.type = .rbrace then
                      .error (.unexpected [.identifier] t5.start)
                    else
                      pObjectLoop fuel st5 t5 nodeToks seen
                        (entries ++ [(keyNode, vnode)]) coll5
                else if t4.type = .rbrace then
                  pObjectLoop fuel st4 t4 nodeToks seen
                    (entries ++ [(keyNode, vnode)]) []
                else
                  .error (.unexpected [.comma, .rbrace] t4.start)

/-- parser.List: an inline array. Comma tokens are kept in the entry
suffixes; the closing bracket is appended to the suffix of the last
entry (or of the list node when empty). -/
def pList (fuel : Nat) (st : PState) (tok : Token) (pre : List Token) :
    Except PErr (Node × PState) :=
  match fuel with
  | 0 => .error .fuel
  | fuel + 1 =>
    match pNext st [.whitespace, .newline, .comment] with
    | .error e => .error e
    | .ok (t, coll, st1) =>
      let (t, st1) :=
        if t.type = .doubleRSquare then splitDouble .rsquare "]" t st1 else (t, st1)
      pListLoop fuel st1 t (pre ++ [tok] ++ coll) []

/-- The loop of parser.List. -/
def pListLoop (fuel : Nat) (st : PState) (t : Token) (nodeToks : List Token)
    (entries : List Node) : Except PErr (Node × PState) :=
  match fuel with
  | 0 => .error .fuel
  | fuel + 1 =>
    if t.type = .rsquare then
      match entries.reverse with
      | [] =>
        .ok (.mk .list .none { line := 0, column := 0 } nodeToks [t] Option.none Option.none, st)
      | last :: restRev =>
        let entries := (last.appendSuffix [t] :: restRev).reverse
        .ok (.mk .list .none { line := 0, column := 0 } nodeToks []
              (chainNodes entries) Option.none, st)
    else
      match pValue fuel st t [] with
      | .error e => .error e
      | .ok (entry, st2) =>
        match pNext st2 [.whitespace, .newline, .comment] with
        | .error e => .error e
        | .ok (t3, coll3, st3) =>
          let entry := entry.appendSuffix coll3
          let (t3, st3) :=
            if t3.type = .doubleRSquare then splitDouble .rsquare "]" t3 st3 else (t3, st3)
          if t3.type = .comma then
            let entry := entry.appendSuffix [t3]
            match pNext st3 [.whitespace, .newline, .comment] with
            | .error e => .error e
            | .ok (t4, coll4, st4) =>
              let entry := entry.appendSuffix coll4
              let (t4, st4) :=
                if t4.type = .doubleRSquare then splitDouble .rsquare "]" t4 st4 else (t4, st4)
              pListLoop fuel st4 t4 nodeToks (entries ++ [entry])
          else if t3.type ≠ .rsquare then
            .error (.unexpected [.rsquare] t3.start)
          else
            pListLoop fuel st3 t3 nodeToks (entries ++ [entry])

end

/-- A table header waiting for its entries: the key node data of the
header line and the children of its table node collected so far. -/
structure PendingHeader where
  ktokens : List Token
  ksuffix : List Token
  value : List PathElem
  pos : Cursor
  children : List Node

/-- State threaded through the top-level parse loop: the token stream,
the two key registries, the current table path, the completed root-level
children and the pending table header, the functional image of the
rootprev/localprev pointer pair. -/
structure TState where
  st : PState
  known : KeyReg
  knownLocal : KeyReg
  currentPath : List PathElem
  root : List Node
  pending : Option PendingHeader

/-- Materialize the pending header: its table node receives the children
collected so far and becomes the child of the header key node, which is
appended to the root children. -/
def flushPending (ts : TState) : TState :=
  match ts.pending with
  | Option.none => ts
  | Option.some ph =>
    let zero : Cursor := { line := 0, column := 0 }
    let table : Node := .mk .map .none zero [] [] (chainNodes ph.children) Option.none
    let keyNode : Node :=
      .mk .keypath (.path ph.value) ph.pos ph.ktokens ph.ksuffix (Option.some table) Option.none
    { ts with root := ts.root ++ [keyNode], pending := Option.none }

/-- Append a finished assignment node to the current container: the
pending table when one is open, the root otherwise. -/
def appendChild (ts : TState) (n : Node) : TState :=
  match ts.pending with
  | Option.none => { ts with root := ts.root ++ [n] }
  | Option.some ph => { ts with pending := Option.some { ph with children := ph.children ++ [n] } }

/-- The duplicate checks of the assignment branch over the non-final key
segments: a segment that is already an explicit or inline table raises a
duplicate-key error naming the original definition; otherwise it is
recorded as an explicit key in the local registry. -/
def checkAssignInner (known : KeyReg) (cur : List PathElem) (pos : Cursor) :
    List PathElem → List PathElem → KeyReg → Except PErr (KeyReg × List PathElem)
  | [], path, knownLocal => .ok (knownLocal, path)
  | seg :: rest, path, knownLocal =>
    let path := path ++ [seg]
    let kd := digest2 cur path
    let tbl := regGet known kd
    if tbl.explicit || tbl.inlined then
      .error (.duplicate { kind := tbl.kind, pfix := cur, path := path, position := tbl.defAt })
    else
      let tblL := regGet knownLocal kd
      let tblL := { tblL with defAt := pos, explicit := true, kind := "key" }
      checkAssignInner known cur pos rest path (regSet knownLocal kd tblL)

/-- The registration walk of the table-header branch over the non-final
key segments: unseen segments become implicit tables, inline tables are
rejected, and array segments contribute their current index to the
path. -/
def checkHeaderInner (pos : Cursor) :
    List PathElem → List PathElem → KeyReg → Except PErr (KeyReg × List PathElem)
  | [], path, known => .ok (known, path)
  | seg :: rest, path, known =>
    let path := path ++ [seg]
    let kd := digest1 path
    match regFind known kd with
    | Option.none =>
      let tbl : RegEntry := { defAt := pos, kind := "table" }
      -- a fresh entry is never an array, so no index segment is appended
      checkHeaderInner pos rest path (regSet known kd tbl)
    | Option.some tbl =>
      if tbl.inlined then
        .error (.duplicate { kind := tbl.kind, pfix := [], path := path, position := tbl.defAt })
      else
        let path := if tbl.array then path ++ [.idx tbl.idx] else path
        checkHeaderInner pos rest path known

/-- End of parse: flush the pending header and wrap the root map in a
document node. -/
def parseFinish (ts : TState) : Except PErr Node :=
  let ts := flushPending ts
  let zero : Cursor := { line := 0, column := 0 }
  let rootval : Node := .mk .map .none zero [] [] (chainNodes ts.root) Option.none
  .ok (.mk .document .none zero [] [] (Option.some rootval) Option.none)

mutual

/-- One iteration of the Go for loop of parser.Parse; fuel bounds the
number of top-level lines. -/
def parseLoop (fuel : Nat) (ts : TState) : Except PErr Node :=
  match fuel with
  | 0 => .error .fuel
  | fuel + 1 =>
    match pNext ts.st [.whitespace, .newline, .comment] with
    | .error e => .error e
    | .ok (tok, coll, st1) =>
      match tok.type with
      | .eof => parseFinish ts
      | .lsquare | .doubleLSquare =>
        let keyToks := coll ++ [tok]
        match pNext st1 [.whitespace] with
        | .error e => .error e
        | .ok (tok2, coll2, st2) =>
          let keyToks := keyToks ++ coll2
          let delim : TokenType := if tok.type = .doubleLSquare then .doubleRSquare else .rsquare
          match pKey (fuel + 1) st2 tok2 delim keyToks [] with
          | .error e => .error e
          | .ok kr => parseHeader fuel ts kr tok2.start delim
      | _ =>
        match pKey (fuel + 1) st1 tok .equal coll [] with
        | .error e => .error e
        | .ok kr => parseAssign fuel ts kr tok.start

/-- The key = value branch of parser.Parse. -/
def parseAssign (fuel : Nat) (ts : TState) (kr : KeyRes) (pos : Cursor) :
    Except PErr Node :=
  match fuel with
  | 0 => .error .fuel
  | fuel + 1 =>
  match kr.path.dropLast, kr.path.getLast? with
  | _, Option.none => .error (.goPanic "empty key path")
  | inner, Option.some lastSeg =>
    match checkAssignInner ts.known ts.currentPath pos inner [] ts.knownLocal with
    | .error e => .error e
    | .ok (knownLocal, path0) =>
      let path := path0 ++ [lastSeg]
      let kd := digest2 ts.currentPath path
      let tbl := regGet ts.known kd
      if tbl.explicit then
        .error (.duplicate
          { kind := tbl.kind, pfix := ts.currentPath, path := path, position := tbl.defAt })
      else
        let tblL := regGet knownLocal kd
        if tblL.explicit then
          .error (.duplicate
            { kind := tblL.kind, pfix := ts.currentPath, path := path, position := tblL.defAt })
        else
          let tblL := { tblL with defAt := pos, explicit := true, inlined := true, kind := "key" }
          let knownLocal := regSet knownLocal kd tblL
          let ts := { ts with knownLocal := knownLocal }
          match pNext kr.st [.whitespace] with
          | .error e => .error e
          | .ok (vt, vcoll, st2) =>
            match pValue (fuel + 1) st2 vt vcoll with
            | .error e => .error e
            | .ok (vnode, st3) =>
              -- the trailing run: whitespace and comments flow into the
              -- value suffix, the newline into the key suffix
              match pNext st3 [.whitespace, .comment] with
              | .error e => .error e
              | .ok (t4, coll4, st4) =>
                let vnode := vnode.appendSuffix coll4
                let finish (ksuffix : List Token) (st : PState) (stop : Bool) :
                    Except PErr Node :=
                  let keyNode : Node :=
                    .mk .keypath (.path path) pos kr.ktokens ksuffix (Option.some vnode) Option.none
                  let ts := appendChild { ts with st := st } keyNode
                  if stop then parseFinish ts else parseLoop fuel ts
                if t4.type = .eof then
                  finish kr.ksuffix st4 true
                else if t4.type = .newline then
                  finish (kr.ksuffix ++ [t4]) st4 false
                else
                  .error (.unexpected [.newline, .eof] t4.start)

/-- The [table] / [[array-of-table]] branch of parser.Parse. -/
def parseHeader (fuel : Nat) (ts : TState) (kr : KeyRes) (pos : Cursor)
    (delim : TokenType) : Except PErr Node :=
  match fuel with
  | 0 => .error .fuel
  | fuel + 1 =>
  let known := regMerge ts.known ts.knownLocal
  let ts := { ts with known := known, knownLocal := [] }
  match kr.path.dropLast, kr.path.getLast? with
  | _, Option.none => .error (.goPanic "empty key path")
  | inner, Option.some lastSeg =>
    match checkHeaderInner pos inner [] ts.known with
    | .error e => .error e
    | .ok (known, path0) =>
      let path := path0 ++ [lastSeg]
      let kd := digest1 path
      let found := regFind known kd
      let tbl := found.getD {}
      let step : Except PErr (RegEntry × List PathElem) :=
        if delim = .rsquare then
          if tbl.explicit then
            .error (.duplicate { kind := tbl.kind, pfix := [], path := path, position := tbl.defAt })
          else
            .ok ({ tbl with kind := "table" }, path)
        else
          if found.isSome && !tbl.array then
            .error (.duplicate { kind := tbl.kind, pfix := [], path := path, position := tbl.defAt })
          else
            let tbl :=
              if !tbl.explicit then { tbl with array := true, kind := "array" }
              else { tbl with idx := tbl.idx + 1 }
            .ok (tbl, path ++ [.idx tbl.idx])
      match step with
      | .error e => .error e
      | .ok (tbl, path) =>
        let tbl := { tbl with defAt := pos, explicit := true }
        let known := regSet known kd tbl
        let ts := flushPending { ts with known := known }
        match pNext kr.st [.whitespace, .comment] with
        | .error e => .error e
        | .ok (t4, coll4, st4) =>
          let finish (ksuffix : List Token) (st : PState) (stop : Bool) : Except PErr Node :=
            let ts :=
              { ts with
                st := st
                currentPath := path
                pending := Option.some
                  { ktokens := kr.ktokens, ksuffix := ksuffix, value := path
                    pos := pos, children := [] } }
            if stop then parseFinish ts else parseLoop fuel ts
          if t4.type = .eof then
            finish (kr.ksuffix ++ coll4) st4 true
          else if t4.type = .newline then
            finish (kr.ksuffix ++ coll4 ++ [t4]) st4 false
          else
            .error (.unexpected [.newline, .eof] t4.start)

end

/-- parser.Parse at the token level. -/
def tomlParse (toks : List Token) : Except PErr Node :=
  parseLoop (2 * toks.length + 8)
    { st := { toks := toks, prevTok := Option.none }
      known := [], knownLocal := [], currentPath := [], root := []
      pending := Option.none }

/-- The parse error, when any. -/
def parseErrOf : Except PErr Node → Option PErr
  | .error e => Option.some e
  | .ok _ => Option.none

/-- The key-path values of the root-level key nodes of a parsed
document, in order. -/
def rootKeyPaths : Except PErr Node → Option (List (List PathElem))
  | .error _ => Option.none
  | .ok doc =>
    match doc.child with
    | Option.some rv =>
      Option.some ((nodeList rv.child).filterMap (fun k =>
        match k.value with
        | .path p => Option.some p
        | _ => Option.none))
    | Option.none => Option.none

/-- Replay re-encoding of a parse result. -/
def replayOf : Except PErr Node → Option String
  | .error _ => Option.none
  | .ok doc => Option.some doc.replay

/-! Concrete token sequences.  Each list is the lexer output for the
document shown in the comment; cursors are assigned by layout using the
per-rune advance rule of the lexer. -/

/-- Tokens of the TOML document "a = 1\na = 2". -/
def toksDupAssign : List Token := layout
  [(.identifier, "a", .str "a"), (.whitespace, " ", .none), (.equal, "=", .none),
   (.whitespace, " ", .none), (.number, "1", .num (.intc 1)), (.newline, "\n", .none),
   (.identifier, "a", .str "a"), (.whitespace, " ", .none), (.equal, "=", .none),
   (.whitespace, " ", .none), (.number, "2", .num (.intc 2))]

/-- Tokens of the TOML document "[a]\n[a]". -/
def toksDupTable : List Token := layout
  [(.lsquare, "[", .none), (.identifier, "a", .str "a"), (.rsquare, "]", .none),
   (.newline, "\n", .none),
   (.lsquare, "[", .none), (.identifier, "a", .str "a"), (.rsquare, "]", .none)]

/-- Tokens of the TOML document "[[a]]\n[[a]]". -/
def toksArrayTables : List Token := layout
  [(.doubleLSquare, "[[", .none), (.identifier, "a", .str "a"), (.doubleRSquare, "]]", .none),
   (.newline, "\n", .none),
   (.doubleLSquare, "[[", .none), (.identifier, "a", .str "a"), (.doubleRSquare, "]]", .none)]

/-- Tokens of the TOML document "a = 1\n". -/
def toksSimpleAssign : List Token := layout
  [(.identifier, "a", .str "a"), (.whitespace, " ", .none), (.equal, "=", .none),
   (.whitespace, " ", .none), (.number, "1", .num (.intc 1)), (.newline, "\n", .none)]

/-- Tokens of the TOML document "a = { b = 1, b = 2 }". -/
def toksInlineDup : List Token := layout
  [(.identifier, "a", .str "a"), (.whitespace, " ", .none), (.equal, "=", .none),
   (.whitespace, " ", .none), (.lbrace, "\x7b", .none), (.whitespace, " ", .none),
   (.identifier, "b", .str "b"), (.whitespace, " ", .none), (.equal, "=", .none),
   (.whitespace, " ", .none), (.number, "1", .num (.intc 1)),
   (.comma, ",", .none), (.whitespace, " ", .none),
   (.identifier, "b", .str "b"), (.whitespace, " ", .none), (.equal, "=", .none),
   (.whitespace, " ", .none), (.number, "2", .num (.intc 2)),
   (.whitespace, " ", .none), (.rbrace, "\x7d", .none)]

/-- Tokens of the TOML document "x = { k = 1 }\ny = { k = 2 }\nk = 3":
the same key k occurs in two distinct inline tables and at top level. -/
def toksInlineScoped : List Token := layout
  [(.identifier, "x", .str "x"), (.whitespace, " ", .none), (.equal, "=", .none),
   (.whitespace, " ", .none), (.lbrace, "\x7b", .none), (.whitespace, " ", .none),
   (.identifier, "k", .str "k"), (.whitespace, " ", .none), (.equal, "=", .none),
   (.whitespace, " ", .none), (.number, "1", .num (.intc 1)),
   (.whitespace, " ", .none), (.rbrace, "\x7d", .none), (.newline, "\n", .none),
   (.identifier, "y", .str "y"), (.whitespace, " ", .none), (.equal, "=", .none),
   (.whitespace, " ", .none), (.lbrace, "\x7b", .none), (.whitespace, " ", .none),
   (.identifier, "k", .str "k"), (.whitespace, " ", .none), (.equal, "=", .none),
   (.whitespace, " ", .none), (.number, "2", .num (.intc 2)),
   (.whitespace, " ", .none), (.rbrace, "\x7d", .none), (.newline, "\n", .none),
   (.identifier, "k", .str "k"), (.whitespace, " ", .none), (.equal, "=", .none),
   (.whitespace, " ", .none), (.number, "3", .num (.intc 3))]

/-! ## JSON5 parser (encoding/json5/parse.go), token level -/

/-- json5 parser.Next: collects comment, inline-comment, newline and
whitespace tokens and returns the first significant token.  Error
tokens are returned as-is (the callers handle them). -/
def jNext (toks : List Token) (acc : List Token) : Token × List Token × List Token :=
  match toks with
  | [] => (eofToken, acc, [])
  | t :: rest =>
    if t.type = .comment || t.type = .inlineComment || t.type = .newline ||
        t.type = .whitespace then
      jNext rest (acc ++ [t])
    else (t, acc, rest)

/-- Negation of a number constant (constant.UnaryOp with SUB). -/
def constNeg : ConstVal → ConstVal
  | .intc v => .intc (-v)
  | .ratc q => .ratc (-q)

mutual

/-- json5 parser.Value. -/
def jValue (fuel : Nat) (toks : List Token) (tok : Token) (pre : List Token) :
    Except PErr (Node × List Token) :=
  match fuel with
  | 0 => .error .fuel
  | fuel + 1 =>
    match tok.type with
    | .lbrace => jObject fuel toks tok pre
    | .lsquare => jList fuel toks tok pre
    | .str =>
      match tok.value with
      | .str s => .ok (.mk .str (.str s) tok.start (pre ++ [tok]) [] Option.none Option.none, toks)
      | _ => .error (.goPanic "token value is not a string")
    | .number =>
      match tok.value with
      | .num v => .ok (.mk .number (.num v) tok.start (pre ++ [tok]) [] Option.none Option.none, toks)
      | _ => .error (.goPanic "token value is not a number")
    | .bool =>
      match tok.value with
      | .bool b => .ok (.mk .bool (.bool b) tok.start (pre ++ [tok]) [] Option.none Option.none, toks)
      | _ => .error (.goPanic "token value is not a bool")
    | .nil =>
      .ok (.mk .nil .none tok.start (pre ++ [tok]) [] Option.none Option.none, toks)
    | .minus | .plus =>
      let (next, coll, toks) := jNext toks []
      match next.type with
      | .error => .error (.lexError next.start)
      | .number =>
        match next.value with
        | .num v =>
          let v := if tok.type = .minus then constNeg v else v
          .ok (.mk .number (.num v) tok.start (pre ++ [tok] ++ coll ++ [next]) []
                Option.none Option.none, toks)
        | _ => .error (.goPanic "token value is not a number")
      | _ => .error (.unexpected [] next.start)
    | .error => .error (.lexError tok.start)
    | _ => .error (.unexpected [] tok.start)

/-- json5 parser.Object: no duplicate-key detection is performed; every
key occurrence becomes a sibling key node. -/
def jObject (fuel : Nat) (toks : List Token) (tok : Token) (pre : List Token) :
    Except PErr (Node × List Token) :=
  match fuel with
  | 0 => .error .fuel
  | fuel + 1 =>
    let (t, coll, toks) := jNext toks []
    jObjectLoop fuel toks t (pre ++ [tok] ++ coll) []

def jObjectLoop (fuel : Nat) (toks : List Token) (t : Token) (nodeToks : List Token)
    (entries : List (Node × Node)) : Except PErr (Node × List Token) :=
  match fuel with
  | 0 => .error .fuel
  | fuel + 1 =>
    if t.type = .rbrace then
      match entries.reverse with
      | [] =>
        .ok (.mk .map .none { line := 0, column := 0 } nodeToks [t] Option.none Option.none, toks)
      | (k, v) :: restRev =>
        let entries := ((k, v.appendSuffix [t]) :: restRev).reverse
        let keyNodes := entries.map (fun e =>
          match e.1 with
          | .mk ty v2 p ts sf _ _ => Node.mk ty v2 p ts sf (Option.some e.2) Option.none)
        .ok (.mk .map .none { line := 0, column := 0 } nodeToks []
              (chainNodes keyNodes) Option.none, toks)
    else
      let keyVal : Except PErr NodeValue :=
        match t.type with
        | .identifier | .str =>
          match t.value with
          | .str s => .ok (.str s)
          | _ => .error (.goPanic "token value is not a string")
        | _ => .error (.unexpected [.str, .identifier] t.start)
      match keyVal with
      | .error e => .error e
      | .ok kv =>
        let (t2, coll2, toks) := jNext toks []
        if t2.type ≠ .colon then .error (.unexpected [.colon] t2.start)
        else
          let keyNode : Node :=
            .mk .str kv t.start ([t] ++ coll2 ++ [t2]) [] Option.none Option.none
          let (t3, coll3, toks) := jNext toks []
          match jValue fuel toks t3 coll3 with
          | .error e => .error e
          | .ok (vnode, toks) =>
            let (t4, coll4, toks) := jNext toks []
            let vnode := vnode.appendSuffix coll4
            if t4.type = .comma then
              let vnode := vnode.appendSuffix [t4]
              let (t5, coll5, toks) := jNext toks []
              let vnode := vnode.appendSuffix coll5
              jObjectLoop fuel toks t5 nodeToks (entries ++ [(keyNode, vnode)])
            else if t4.type ≠ .rbrace then
              .error (.unexpected [.rbrace] t4.start)
            else
              jObjectLoop fuel toks t4 nodeToks (entries ++ [(keyNode, vnode)])

/-- json5 parser.List. -/
def jList (fuel : Nat) (toks : List Token) (tok : Token) (pre : List Token) :
    Except PErr (Node × List Token) :=
  match fuel with
  | 0 => .error .fuel
  | fuel + 1 =>
    let (t, coll, toks) := jNext toks []
    jListLoop fuel toks t (pre ++ [tok] ++ coll) []

def jListLoop (fuel : Nat) (toks : List Token) (t : Token) (nodeToks : List Token)
    (entries : List Node) : Except PErr (Node × List Token) :=
  match fuel with
  | 0 => .error .fuel
  | fuel + 1 =>
    if t.type = .rsquare then
      match entries.reverse with
      | [] =>
        .ok (.mk .list .none { line := 0, column := 0 } nodeToks [t] Option.none Option.none, toks)
      | last :: restRev =>
        let entries := (last.appendSuffix [t] :: restRev).reverse
        .ok (.mk .list .none { line := 0, column := 0 } nodeToks []
              (chainNodes entries) Option.none, toks)
    else
      match jValue fuel toks t [] with
      | .error e => .error e
      | .ok (entry, toks) =>
        let (t2, coll2, toks) := jNext toks []
        let entry := entry.appendSuffix coll2
        if t2.type = .comma then
          let entry := entry.appendSuffix [t2]
          let (t3, coll3, toks) := jNext toks []
          let entry := entry.appendSuffix coll3
          jListLoop fuel toks t3 nodeToks (entries ++ [entry])
        else if t2.type ≠ .rsquare then
          .error (.unexpected [.rsquare] t2.start)
        else
          jListLoop fuel toks t2 nodeToks (entries ++ [entry])

end

/-- json5 parser.Parse at the token level: a single root value framed by
leading trivia (collected into the root value tokens) and trailing
trivia (collected into its suffix), then end of input. -/
def json5Parse (toks : List Token) : Except PErr Node :=
  let (tok, coll, toks) := jNext toks []
  if tok.type = .error then .error (.lexError tok.start)
  else
    match jValue (2 * toks.length + 8) toks tok coll with
    | .error e => .error e
    | .ok (rootval, toks) =>
      let (t2, coll2, _) := jNext toks []
      let rootval := rootval.appendSuffix coll2
      if t2.type ≠ .eof then .error (.unexpected [.eof] t2.start)
      else
        let zero : Cursor := { line := 0, column := 0 }
        .ok (.mk .document .none zero [] [] (Option.some rootval) Option.none)

/-! ## Binding engine value model (internal/reflectutil)

The Go destinations are modeled by an explicit universe of types and
values: strings, bools, fixed-width signed and unsigned integers
(widths 8/16/32/64; int and uintptr behave as width 64), the
arbitrary-precision big.Int / big.Rat / big.Float destinations, slices
and string-keyed maps (tracking Go nil-ness), the empty interface, and
structs as ordered (Go field name, value) lists.  reflect.Value.SetInt
and SetUint truncate to the destination width without checking, which
the model makes explicit with wrapSigned / wrapUnsigned.  big.Float is
modeled as an exact rational; the branches where Go rounds (SetRat on a
non-dyadic rational) are marked unmodeled and are never exercised by
the claims. -/

inductive GoType where
  | tstring
  | tbool
  | tint (w : Nat)
  | tuint (w : Nat)
  | tbigInt
  | tbigRat
  | tbigFloat
  | tslice (elem : GoType)
  | tmap (elem : GoType)
  | tiface
  | tstruct (fields : List (String × GoType))
deriving Repr

inductive GoVal where
  | vstring (s : String)
  | vbool (b : Bool)
  | vint (w : Nat) (v : Int)
  | vuint (w : Nat) (v : Int)
  | vbigInt (v : Int)
  | vbigRat (q : Rat)
  | vbigFloat (q : Rat)
  | vslice (elem : GoType) (isNil : Bool) (xs : List GoVal)
  | vmap (elem : GoType) (isNil : Bool) (entries : List (String × GoVal))
  | viface (inner : Option GoVal)
  | vstruct (fields : List (String × GoVal))
deriving Repr

/-- Errors of the binding engine. doesNotFit stands for the Go error
"cannot assign (value) to (type): value does not fit"; notScalar for
"(type) is not a scalar"; nodeMismatch for "config has (node type), but
expected (type) instead"; panic for a Go runtime panic; unmodeled marks
a Go branch outside the modeled universe, never reached by the claims. -/
inductive GoErr where
  | doesNotFit
  | notScalar
  | nodeMismatch (expected : NodeType)
  | typeErr (msg : String)
  | panic (msg : String)
  | unmodeled (msg : String)
deriving Repr, DecidableEq

mutual

/-- The Go type of a modeled value. -/
def typeOf : GoVal → GoType
  | .vstring _ => .tstring
  | .vbool _ => .tbool
  | .vint w _ => .tint w
  | .vuint w _ => .tuint w
  | .vbigInt _ => .tbigInt
  | .vbigRat _ => .tbigRat
  | .vbigFloat _ => .tbigFloat
  | .vslice e _ _ => .tslice e
  | .vmap e _ _ => .tmap e
  | .viface _ => .tiface
  | .vstruct fields => .tstruct (typeOfFields fields)

def typeOfFields : List (String × GoVal) → List (String × GoType)
  | [] => []
  | (n, v) :: rest => (n, typeOf v) :: typeOfFields rest

end

mutual

/-- reflect.Zero for the modeled universe: nil slices, nil maps, nil
interfaces, zero scalars. -/
def zeroVal : GoType → GoVal
  | .tstring => .vstring ""
  | .tbool => .vbool false
  | .tint w => .vint w 0
  | .tuint w => .vuint w 0
  | .tbigInt => .vbigInt 0
  | .tbigRat => .vbigRat 0
  | .tbigFloat => .vbigFloat 0
  | .tslice e => .vslice e true []
  | .tmap e => .vmap e true []
  | .tiface => .viface Option.none
  | .tstruct fs => .vstruct (zeroFields fs)

def zeroFields : List (String × GoType) → List (String × GoVal)
  | [] => []
  | (n, t) :: rest => (n, zeroVal t) :: zeroFields rest

end

/-- Two's-complement truncation performed by reflect.Value.SetInt on a
destination of width w. -/
def wrapSigned (w : Nat) (v : Int) : Int :=
  ((v + 2 ^ (w - 1)) % 2 ^ w) - 2 ^ (w - 1)

/-- Truncation performed by reflect.Value.SetUint. -/
def wrapUnsigned (w : Nat) (v : Int) : Int :=
  v % 2 ^ w

/-- constant.Int64Val exactness: the value is an integer within the
int64 range. -/
def int64Fits (v : Int) : Bool :=
  decide (-(2 ^ 63 : Int) ≤ v) && decide (v < 2 ^ 63)

/-- constant.Uint64Val exactness. -/
def uint64Fits (v : Int) : Bool :=
  decide ((0 : Int) ≤ v) && decide (v < 2 ^ 64)

/-- reflectutil.ConstantToInt: int64 when the value fits, else uint64
for positive values that fit, else *big.Int. -/
def ConstantToInt (v : Int) : GoVal :=
  if int64Fits v then .vint 64 v
  else if 0 < v && uint64Fits v then .vuint 64 v
  else .vbigInt v

/-- reflectutil.ToScalar on the interpreted node values the claims
exercise. The rational (constant.Float) branch would produce a float64
when constant.Float64Val is exact, which the model does not represent. -/
def ToScalar : NodeValue → Except GoErr GoVal
  | .bool b => .ok (.vbool b)
  | .str s => .ok (.vstring s)
  | .num (.intc v) => .ok (ConstantToInt v)
  | .num (.ratc _) => .error (.unmodeled "ConstantToFloat")
  | _ => .error (.unmodeled "ToScalar fallthrough")

/-- reflectutil.SetScalar: returns the handled flag of the source
together with the updated destination value or the error.  The order of
the branches mirrors the source: the addressable big.Float / big.Rat /
big.Int destinations first, then the empty-interface fill, then the
switch on the destination kind.  Type assertions that panic in Go
produce a panic error. -/
def SetScalar (dst : GoVal) (value : NodeValue) (nodetype : NodeType) :
    Bool × Except GoErr GoVal :=
  match dst with
  | .vbigFloat _ =>
    if nodetype ≠ .number then (true, .error (.nodeMismatch .number))
    else
      match value with
      | .num (.intc v) => (true, .ok (.vbigFloat v))
      | .num (.ratc _) => (true, .error (.unmodeled "big.Float.SetRat rounds"))
      | _ => (true, .error (.panic "unsupported node value for number node"))
  | .vbigRat _ =>
    if nodetype ≠ .number then (true, .error (.nodeMismatch .number))
    else
      match value with
      | .num (.intc v) => (true, .ok (.vbigRat v))
      | .num (.ratc q) => (true, .ok (.vbigRat q))
      | _ => (true, .error (.panic "unsupported node value for number node"))
  | .vbigInt _ =>
    if nodetype ≠ .number then (true, .error (.nodeMismatch .number))
    else
      match value with
      | .num (.intc v) => (true, .ok (.vbigInt v))
      | .num (.ratc q) => (true, .ok (.vbigInt (Int.tdiv q.num q.den)))
      | _ => (true, .error (.panic "unsupported node value for number node"))
  | .viface _ =>
    if value ≠ .none then
      match ToScalar value with
      | .ok sc => (true, .ok (.viface (Option.some sc)))
      | .error e => (true, .error e)
    else if nodetype = .nil then (true, .ok (.viface Option.none))
    else (false, .error .notScalar)
  | .vbool _ =>
    if nodetype ≠ .bool then (true, .error (.nodeMismatch .bool))
    else
      match value with
      | .bool b => (true, .ok (.vbool b))
      | _ => (true, .error (.panic "interface conversion to bool"))
  | .vint w _ =>
    if nodetype ≠ .number then (true, .error (.nodeMismatch .number))
    else
      match value with
      | .num (.intc v) =>
        if int64Fits v then (true, .ok (.vint w (wrapSigned w v)))
        else (true, .error .doesNotFit)
      | .num (.ratc _) => (true, .error (.panic "constant is not an Int"))
      | _ => (true, .error (.panic "interface conversion to constant.Value"))
  | .vuint w _ =>
    if nodetype ≠ .number then (true, .error (.nodeMismatch .number))
    else
      match value with
      | .num (.intc v) =>
        if uint64Fits v then (true, .ok (.vuint w (wrapUnsigned w v)))
        else (true, .error .doesNotFit)
      | .num (.ratc _) => (true, .error (.panic "constant is not an Int"))
      | _ => (true, .error (.panic "interface conversion to constant.Value"))
  | .vstring _ =>
    if nodetype ≠ .str then (true, .error (.nodeMismatch .str))
    else
      match value with
      | .str s => (true, .ok (.vstring s))
      | _ => (true, .error (.panic "interface conversion to string"))
  | _ => (false, .error .notScalar)

/-! ## Unmarshal, Set and the dynamic-value population
(internal/reflectutil/unmarshal.go)

The embedding mirrors unmarshal, Set and toValue.  Pointer destinations
and the custom UnmarshalValue hooks (which handle only time and JSON
types outside the modeled universe) are not represented; the error-path
decoration is collapsed into plain errors.  Go reference semantics of
maps and slices are reproduced by threading the updated value through
the functional state. -/

/-- Size of a node tree, used to provision fuel. -/
def Node.weight : Node → Nat
  | .mk _ _ _ _ _ c s =>
    1 +
      (match c with
        | Option.none => 0
        | Option.some n => n.weight) +
      (match s with
        | Option.none => 0
        | Option.some n => n.weight)

/-- Unwrap an interface chain; returns the unwrap count for rewrapping
(the for loop over rval.Kind() == reflect.Interface). A nil interface
is left in place: the creation of built-in containers is decided next
to the path element. -/
def unwrapIface : GoVal → Nat × GoVal
  | .viface (Option.some inner) =>
    let (n, v) := unwrapIface inner
    (n + 1, v)
  | v => (0, v)

/-- Rewrap after mutation through the interface chain. -/
def rewrapIface : Nat → GoVal → GoVal
  | 0, v => v
  | n + 1, v => .viface (Option.some (rewrapIface n v))

/-- The resolved document key of a struct field: the field options of
the modeled universe carry no overrides, so the key is the naming
convention applied to the Go field name (walkFields). -/
def resolvedName (conv : String → String) (goName : String) : String :=
  conv goName

/-- Lookup of a struct field by resolved name (the fields map built by
VisibleFields); the modeled structs have distinct resolved names. -/
def structFindIdx (conv : String → String) (fields : List (String × GoVal))
    (fname : String) : Option Nat :=
  fields.findIdx? (fun f => resolvedName conv f.1 = fname)

/-- In-place update of a struct field by index. -/
def structUpdate (fields : List (String × GoVal)) (i : Nat) (v : GoVal) :
    List (String × GoVal) :=
  fields.set i (fields.getD i ("", v) |>.1, v)

/-- reflect.Value.SetMapIndex: replace the binding when present, append
otherwise. -/
def mapSetEntry (entries : List (String × GoVal)) (k : String) (v : GoVal) :
    List (String × GoVal) :=
  if entries.any (fun e => e.1 = k) then
    entries.map (fun e => if e.1 = k then (k, v) else e)
  else entries ++ [(k, v)]

mutual

/-- reflectutil.unmarshal: scalar assignment through SetScalar first,
then the switch on the destination kind. -/
def unmarshal (fuel : Nat) (val : GoVal) (node : Node) (conv : String → String)
    (merge : Bool) : Except GoErr GoVal :=
  match fuel with
  | 0 => .error (.unmodeled "fuel")
  | fuel + 1 =>
    let (scalar, res) := SetScalar val node.value node.type
    if scalar then res
    else
      match val with
      | .vslice elemT isNil xs =>
        if node.type = .nil then .ok (.vslice elemT true [])
        else if node.type ≠ .list then .error (.nodeMismatch .list)
        else
          let children := nodeList node.child
          let l := children.length
          -- val.Len() != l: allocate a fresh slice of length l
          let (isNil, xs) :=
            if xs.length ≠ l then (false, List.replicate l (zeroVal elemT))
            else (isNil, xs)
          match unmarshalElems fuel conv merge children xs with
          | .error e => .error e
          | .ok xs => .ok (.vslice elemT isNil xs)
      | .vmap elemT isNil entries =>
        if node.type = .nil then .ok (.vmap elemT true [])
        else if node.type ≠ .map then .error (.nodeMismatch .map)
        else
          -- val.IsNil() || !merge: allocate a fresh map
          let entries := if isNil || !merge then [] else entries
          unmarshalMapLoop fuel conv merge (nodeList node.child) (.vmap elemT false entries)
      | .vstruct fields =>
        if node.type ≠ .map then .error (.nodeMismatch .map)
        else
          let fields := if !merge then zeroFields (typeOfFields fields) else fields
          unmarshalStructLoop fuel conv merge (nodeList node.child) (.vstruct fields)
      | .viface inner =>
        if merge && inner.isSome then
          .error (.unmodeled "merge into a non-nil interface")
        else
          match toValue fuel node conv merge with
          | .error e => .error e
          | .ok rval => .ok (.viface (Option.some rval))
      | _ => .error (.typeErr "unsupported type")

/-- The element loop of the slice case. -/
def unmarshalElems (fuel : Nat) (conv : String → String) (merge : Bool)
    (ns : List Node) (xs : List GoVal) : Except GoErr (List GoVal) :=
  match fuel with
  | 0 => .error (.unmodeled "fuel")
  | fuel + 1 =>
    match ns, xs with
    | [], xs => .ok xs
    | _ :: _, [] => .error (.unmodeled "index out of range")
    | n :: ns, x :: xs =>
      match unmarshal fuel x n conv merge with
      | .error e => .error e
      | .ok x =>
        match unmarshalElems fuel conv merge ns xs with
        | .error e => .error e
        | .ok xs => .ok (x :: xs)

/-- The key loop of the map case.  A key-path key is routed to Set; a
plain key is bound through a fresh element value, and the result is
stored back only when the key was not already present, so for duplicate
keys the first bound value is the one retained. -/
def unmarshalMapLoop (fuel : Nat) (conv : String → String) (merge : Bool)
    (keys : List Node) (val : GoVal) : Except GoErr GoVal :=
  match fuel with
  | 0 => .error (.unmodeled "fuel")
  | fuel + 1 =>
    match keys with
    | [] => .ok val
    | key :: rest =>
      match key.child with
      | Option.none => .error (.panic "key node without value")
      | Option.some value =>
        match val with
        | .vmap elemT isNil entries =>
          if key.type = .keypath then
            match key.value with
            | .path at_ =>
              match SetByPath fuel (.vmap elemT isNil entries) value conv at_ with
              | .error e => .error e
              | .ok val => unmarshalMapLoop fuel conv merge rest val
            | _ => .error (.panic "key-path node without path value")
          else
            match unmarshal fuel (zeroVal .tstring) key conv merge with
            | .error e => .error e
            | .ok rkey =>
              match rkey with
              | .vstring k =>
                let found := entries.find? (fun e => e.1 = k)
                let rval := match found with
                  | Option.some e => e.2
                  | Option.none => zeroVal elemT
                let set := found.isNone
                match unmarshal fuel rval value conv merge with
                | .error e => .error e
                | .ok rval =>
                  let entries := if set then entries ++ [(k, rval)] else entries
                  unmarshalMapLoop fuel conv merge rest (.vmap elemT isNil entries)
              | _ => .error (.unmodeled "non-string map key")
        | _ => .error (.panic "map loop on non-map")

/-- The key loop of the struct case: field names resolve against the
VisibleFields map; misses are skipped; a later occurrence of the same
key binds the same field again, overwriting the earlier value. -/
def unmarshalStructLoop (fuel : Nat) (conv : String → String) (merge : Bool)
    (keys : List Node) (val : GoVal) : Except GoErr GoVal :=
  match fuel with
  | 0 => .error (.unmodeled "fuel")
  | fuel + 1 =>
    match keys with
    | [] => .ok val
    | key :: rest =>
      match key.child with
      | Option.none => .error (.panic "key node without value")
      | Option.some value =>
        match val with
        | .vstruct fields =>
          if key.type = .keypath then
            match key.value with
            | .path at_ =>
              match SetByPath fuel (.vstruct fields) value conv at_ with
              | .error e => .error e
              | .ok val => unmarshalStructLoop fuel conv merge rest val
            | _ => .error (.panic "key-path node without path value")
          else
            let fieldname : Except GoErr String :=
              match key.type, key.value with
              | .str, .str s => .ok s
              | .str, _ => .error (.panic "interface conversion to string")
              | .bool, .bool b => .ok (if b then "true" else "false")
              | .bool, _ => .error (.panic "interface conversion to bool")
              | .nil, _ => .ok "null"
              | _, _ => .error (.typeErr "unsupported node type")
            match fieldname with
            | .error e => .error e
            | .ok fname =>
              match structFindIdx conv fields fname with
              | Option.none => unmarshalStructLoop fuel conv merge rest (.vstruct fields)
              | Option.some i =>
                let fval := (fields.getD i ("", .vbool false)).2
                match unmarshal fuel fval value conv merge with
                | .error e => .error e
                | .ok fval =>
                  unmarshalStructLoop fuel conv merge rest (.vstruct (structUpdate fields i fval))
        | _ => .error (.panic "struct loop on non-struct")

/-- reflectutil toValue: the dynamic value for an empty-interface
destination.  The scalar branches assert node.Value.(bool), which
panics for string and nil nodes (they are unreachable from unmarshal,
where SetScalar intercepts every non-nil scalar first). -/
def toValue (fuel : Nat) (node : Node) (conv : String → String) (merge : Bool) :
    Except GoErr GoVal :=
  match fuel with
  | 0 => .error (.unmodeled "fuel")
  | fuel + 1 =>
    match node.type with
    | .bool | .str | .nil =>
      match node.value with
      | .bool b => .ok (.vbool b)
      | _ => .error (.panic "interface conversion: interface {} is not bool")
    | .number => .error (.unmodeled "constant.Value boxed in interface")
    | .datetime => .error (.unmodeled "datetime value")
    | .map => .error (.unmodeled "map keyed by interface values")
    | .list =>
      match unmarshal fuel (.vslice .tiface true []) node conv merge with
      | .error e => .error e
      | .ok rval => .ok rval
    | _ => .error (.typeErr "unsupported node type")

/-- reflectutil.Set: deep assignment along a key path, creating
intermediate containers as needed. -/
def SetByPath (fuel : Nat) (val : GoVal) (node : Node) (conv : String → String)
    (at_ : List PathElem) : Except GoErr GoVal :=
  match fuel with
  | 0 => .error (.unmodeled "fuel")
  | fuel + 1 =>
    match at_ with
    | [] => unmarshal fuel val node conv true
    | elem :: rest =>
      let (depth, rval) := unwrapIface val
      let rval : GoVal := match rval with
        | .viface Option.none =>
          -- a nil interface: create a built-in container for the segment
          match elem with
          | .idx _ => GoVal.vslice .tiface true []
          | .str _ => GoVal.viface Option.none  -- map[interface{}]interface{}, unmodeled below
        | v => v
      let core : Except GoErr GoVal :=
        match rval with
        | .viface Option.none => .error (.unmodeled "map keyed by interface values")
        | .vmap elemT isNil entries =>
          match elem with
          | .idx _ => .error (.typeErr "cannot index map with int")
          | .str k =>
            let entries := if isNil then [] else entries
            let newvval : GoVal := match entries.find? (fun e => e.1 = k) with
              | Option.some e => e.2
              | Option.none => zeroVal elemT
            match SetByPath fuel newvval node conv rest with
            | .error e => .error e
            | .ok newvval => .ok (.vmap elemT false (mapSetEntry entries k newvval))
        | .vslice elemT isNil xs =>
          match elem with
          | .str _ => .error (.typeErr "cannot index slice or array with string")
          | .idx i =>
            let i := i.toNat
            if h : i < xs.length then
              match SetByPath fuel (xs.get ⟨i, h⟩) node conv rest with
              | .error e => .error e
              | .ok x => .ok (.vslice elemT isNil (xs.set i x))
            else
              let xs := xs ++ List.replicate (i + 1 - xs.length) (zeroVal elemT)
              match SetByPath fuel (zeroVal elemT) node conv rest with
              | .error e => .error e
              | .ok x => .ok (.vslice elemT false (xs.set i x))
        | .vstruct fields =>
          match elem with
          | .idx _ => .ok (.vstruct fields)  -- fname is not a string: no-op
          | .str fname =>
            match structFindIdx conv fields fname with
            | Option.none => .ok (.vstruct fields)
            | Option.some i =>
              match SetByPath fuel (fields.getD i ("", .vbool false)).2 node conv rest with
              | .error e => .error e
              | .ok fv => .ok (.vstruct (structUpdate fields i fv))
        | _ => .error (.typeErr "cannot index value")
      match core with
      | .error e => .error e
      | .ok r => .ok (rewrapIface depth r)

end

/-- reflectutil.Unmarshal: the entry point used by the decoders, with
fuel provisioned from the node size. -/
def UnmarshalModel (val : GoVal) (node : Node) (conv : String → String) :
    Except GoErr GoVal :=
  unmarshal (16 * node.weight + 64) val node conv false

/-! ## Fresh-mode TOML marshaling (reflectutil/marshal.go and the TOML
marshaler)

The embedding covers reflectutil.Marshal driving the TOML marshaler
callbacks over the modeled value universe: scalar rendering, map kvs
construction with the sort.Slice key sort, the sort.SliceStable
value-first partition of MarshalMap, struct fields in declaration order
through VisibleFieldsAsMapEntries, assignments, table headers and
inline lists.  Field options (help comments, tag overrides) are absent
from the modeled universe, so writeComment never emits output. -/

/-- Stable insertion (insert before the first strictly greater
element), the building block of the sort.SliceStable model. -/
def stableInsert (less : α → α → Bool) (x : α) : List α → List α
  | [] => [x]
  | y :: ys => if less x y then x :: y :: ys else y :: stableInsert less x ys

/-- sort.SliceStable: a stable sort with the given less function.  The
same function stands in for sort.Slice where it is applied to entries
with pairwise distinct keys, for which every correct sort produces the
same list. -/
def sliceStable (less : α → α → Bool) (l : List α) : List α :=
  l.foldl (fun acc x => stableInsert less x acc) []

/-- A map entry handed to the marshaler callbacks (reflectutil.MapEntry
restricted to the modeled universe: no field options). -/
structure MapEntry where
  key : String
  value : GoVal
deriving Repr

/-- Go string comparison, lexicographic on the runes (equivalently on
the UTF-8 bytes, since UTF-8 encoding preserves code-point order). -/
def strLt : List Char → List Char → Bool
  | [], [] => false
  | [], _ :: _ => true
  | _ :: _, [] => false
  | a :: as, b :: bs => if a < b then true else if b < a then false else strLt as bs

/-- The key comparison of the sort.Slice call in the map branch of
reflectutil.Marshal. -/
def byKeyLess (a b : MapEntry) : Bool :=
  strLt a.key.data b.key.data

/-- The type of a value after unwrapping its interface layers. -/
def derefType (v : GoVal) : GoType :=
  typeOf (unwrapIface v).2

/-- reflectutil.IsMap: map or struct kind. -/
def isMapType : GoType → Bool
  | .tmap _ => true
  | .tstruct _ => true
  | _ => false

/-- reflectutil.IsList: slice or array kind. -/
def isListType : GoType → Bool
  | .tslice _ => true
  | _ => false

mutual

/-- toml isValueType: true when the value renders as a single TOML
value rather than a sub-table. -/
def isValueType : GoVal → Bool
  | .viface Option.none => true
  | .viface (Option.some inner) => isValueType inner
  | .vbigInt _ => true
  | .vbigRat _ => true
  | .vbigFloat _ => true
  | .vslice elemT _ xs =>
    -- the source guard is IsMap(elem) && !isValueType(zero elem); in the
    -- modeled universe the zero of a map is a nil map and the zero of a
    -- struct is a plain struct (the time types, the only value-typed
    -- structs, are not modeled), so the second conjunct is always true
    if isMapType elemT then false
    else if isValueAnyElem xs then true
    else xs.isEmpty
  | .vmap _ _ _ => false
  | .vstruct _ => false
  | _ => true

/-- The element loop of isValueType: an element that is itself
value-typed or a list makes the whole list value-typed.  The source
first unwraps interfaces around the element; isValueType performs the
identical unwrapping itself, and the list test uses the unwrapped type
via derefType. -/
def isValueAnyElem : List GoVal → Bool
  | [] => false
  | e :: rest =>
    if isValueType e || isListType (derefType e) then true
    else isValueAnyElem rest

end

/-- The comparison of the sort.SliceStable call in the TOML MarshalMap:
value-typed entries come before sub-table entries, stably. -/
def partitionLess (a b : MapEntry) : Bool :=
  let t1 := !isValueType a.value
  let t2 := !isValueType b.value
  if t1 != t2 then t2 else false

/-- The sorted kvs of the map branch of reflectutil.Marshal. -/
def mapKvs (entries : List (String × GoVal)) : List MapEntry :=
  sliceStable byKeyLess (entries.map (fun e => { key := e.1, value := e.2 }))

/-- VisibleFieldsAsMapEntries: struct fields in declaration order with
their resolved names. -/
def structKvs (conv : String → String) (fields : List (String × GoVal)) : List MapEntry :=
  fields.map (fun f => { key := resolvedName conv f.1, value := f.2 })

/-- The kvs reordering of the fresh-mode TOML MarshalMap: the stable
value-first partition. -/
def tomlPrepareKvs (kvs : List MapEntry) : List MapEntry :=
  sliceStable partitionLess kvs

/-- The TOML marshaler state (part of the marshaler struct; the unused
inlinerun / newline flags are omitted, and Indent is the encoder
option, empty by default). -/
structure MState where
  out : String := ""
  first : Bool := true
  curdepth : Int := -1
  listdepth : Nat := 0
  valdepth : Nat := 0
  inlined : Bool := false
  path : List String := []
  listofmap : List Bool := []
  indent : String := ""
deriving Repr

def wrS (m : MState) (s : String) : MState :=
  { m with out := m.out ++ s }

/-- marshaler.depth: negative depths render as 0. -/
def depthOf (m : MState) (offset : Int) : Nat :=
  if m.curdepth + offset < 0 then 0 else (m.curdepth + offset).toNat

/-- marshaler.writeIndent: an empty indent option means two spaces. -/
def writeIndentM (m : MState) (level : Nat) : MState :=
  let ind := if m.indent = "" then "  " else m.indent
  wrS m (String.join (List.replicate level ind))

/-- toml isIdentifierChar. -/
def isIdentChar (r : Char) : Bool :=
  (('a' ≤ r) && (r ≤ 'z')) || (('A' ≤ r) && (r ≤ 'Z')) ||
  (('0' ≤ r) && (r ≤ '9')) || r = '_' || r = '-'

def hexDigit (n : Nat) : Char :=
  if n < 10 then Char.ofNat (48 + n) else Char.ofNat (87 + (n - 10))

def hexStr (digits : Nat) (n : Nat) : String :=
  String.mk ((List.range digits).map (fun i => hexDigit ((n >>> (4 * (digits - 1 - i))) % 16)))

/-- unicode.IsPrint restricted to ASCII, where it coincides with the
0x20..0x7e range; the modeled strings are ASCII. -/
def isPrintASCII (r : Char) : Bool :=
  (0x20 ≤ r.toNat) && (r.toNat ≤ 0x7e)

/-- toml marshaler.quote with a double-quote delimiter: escape the
delimiter, newline, carriage return, backspace, tab, form feed and
backslash; print printable runes; unicode-escape the rest. -/
def quoteTOML (s : String) : String :=
  let one (acc : String) (r : Char) : String :=
    let (acc, r) :=
      if r = '"' || r = '\n' || r = '\r' || r = (Char.ofNat 8) || r = '\t' ||
          r = (Char.ofNat 12) || r = '\\' then
        (acc ++ "\\",
          if r = '\n' then 'n'
          else if r = '\r' then 'r'
          else if r = (Char.ofNat 8) then 'b'
          else if r = '\t' then 't'
          else if r = (Char.ofNat 12) then 'f'
          else r)
      else (acc, r)
    if isPrintASCII r then acc.push r
    else if r.toNat > 0xffff then acc ++ "\\U" ++ hexStr 8 r.toNat
    else acc ++ "\\u" ++ hexStr 4 r.toNat
  (s.data.foldl one "\"") ++ "\""

/-- marshaler.writeKey: bare when every rune is a TOML identifier rune,
quoted otherwise. -/
def writeKeyM (m : MState) (s : String) : MState :=
  if s.data.all isIdentChar && s.length > 0 then wrS m s
  else wrS m (quoteTOML s)

/-- marshaler.writeKeyPath: dot-joined keys. -/
def writeKeyPathM (m : MState) (p : List String) : MState :=
  match p with
  | [] => m
  | [k] => writeKeyM m k
  | k :: rest => writeKeyPathM (wrS (writeKeyM m k) ".") rest

/-- MarshalNumber for an integer constant: fmt %d of the int64 or
big.Int value, that is, the plain decimal representation. -/
def marshalNumberInt (m : MState) (v : Int) : MState :=
  wrS m (toString v)

/-- reflect length of a container (maps; for structs the number of
fields, a path Go would only reach for inline structs, which the
modeled flows never produce). -/
def goLenContainer : GoVal → Nat
  | .vmap _ _ entries => entries.length
  | .vstruct fields => fields.length
  | .vslice _ _ xs => xs.length
  | _ => 1

/-- The nil-skip of the map/struct entry loops: a nil interface (or
pointer) value is omitted entirely when the marshaler cannot render
nil, which the TOML marshaler cannot. -/
def entryIsNil : GoVal → Bool
  | .viface Option.none => true
  | _ => false

/-- toml MarshalMapKey. -/
def marshalMapKeyCb (m : MState) (kv : MapEntry) : MState :=
  let m := { m with path := m.path ++ [kv.key] }
  if m.valdepth > 0 || isValueType kv.value then
    -- writeComment renders the help lines, which are absent here
    let m := if m.valdepth == 0 then writeIndentM m (depthOf m 0) else m
    let m := writeKeyM m kv.key
    let m := wrS m " = "
    { m with first := false }
  else
    let v := (unwrapIface kv.value).2
    if !isListType (typeOf v) then
      let m := if !m.first then { wrS m "\n" with first := false } else m
      let m := writeIndentM m (depthOf m 1)
      let m := wrS m "["
      let m := writeKeyPathM m m.path
      let m := wrS m "]\n"
      { m with curdepth := m.curdepth + 1 }
    else m

/-- toml MarshalMapValue. -/
def marshalMapValueCb (m : MState) (kv : MapEntry) : MState :=
  if m.valdepth > 0 || isValueType kv.value then
    { m with valdepth := m.valdepth + 1, inlined := true }
  else m

/-- toml MarshalMapValuePost. -/
def marshalMapValuePostCb (m : MState) (mvLen : Nat) (kv : MapEntry) (i : Nat) : MState :=
  let m := { m with path := m.path.dropLast }
  if m.valdepth > 0 || isValueType kv.value then
    let m := { m with valdepth := m.valdepth - 1 }
    if m.valdepth == 0 then wrS { m with inlined := false } "\n"
    else if i != mvLen - 1 then wrS m ", "
    else wrS m " "
  else
    let v := (unwrapIface kv.value).2
    if !isListType (typeOf v) then { m with curdepth := m.curdepth - 1 }
    else m

mutual

/-- reflectutil.Marshal driving the TOML marshaler. -/
def rMarshal (fuel : Nat) (conv : String → String) (m : MState) (v : GoVal) :
    Except GoErr MState :=
  match fuel with
  | 0 => .error (.unmodeled "fuel")
  | fuel + 1 =>
    -- toml MarshalValue: a value-typed document root cannot be marshaled
    if m.valdepth == 0 && isValueType v then
      .error (.typeErr "cannot marshal single value: document must contain tables")
    else
      match v with
      | .vbigInt n => .ok (marshalNumberInt m n)
      | .vbigRat _ => .error (.unmodeled "float constant rendering")
      | .vbigFloat _ => .error (.unmodeled "float constant rendering")
      | .viface Option.none => .error (.typeErr "format cannot encode nil")
      | .viface (Option.some inner) => rMarshal fuel conv m inner
      | .vbool b => .ok (wrS m (if b then "true" else "false"))
      | .vint _ n => .ok (marshalNumberInt m n)
      | .vuint _ n => .ok (marshalNumberInt m n)
      | .vstring s => .ok (wrS m (quoteTOML s))
      | .vslice _ _ xs =>
        -- toml MarshalList
        let isVal := m.valdepth > 0 || isValueType v
        let m := { m with listofmap := (!isVal) :: m.listofmap }
        let m :=
          if isVal then
            let m := wrS { m with listdepth := m.listdepth + 1 } "["
            if xs.length > 0 then
              if m.valdepth == 1 then wrS m "\n" else wrS m " "
            else m
          else m
        rMarshalListElems fuel conv m xs.length xs 0
      | .vmap _ _ entries =>
        -- non-string keys and custom stringifiers are outside the universe
        let kvs := mapKvs entries
        -- toml MarshalMap
        if m.inlined then
          let m := wrS (wrS m "\x7b") " "
          rMarshalMapEntries fuel conv m (goLenContainer v) kvs 0
        else
          rMarshalMapEntries fuel conv m (goLenContainer v) (tomlPrepareKvs kvs) 0
      | .vstruct fields =>
        let kvs := structKvs conv fields
        if m.inlined then
          let m := wrS (wrS m "\x7b") " "
          rMarshalMapEntries fuel conv m (goLenContainer v) kvs 0
        else
          rMarshalMapEntries fuel conv m (goLenContainer v) (tomlPrepareKvs kvs) 0

/-- The element loop of the slice branch, ending with MarshalListPost. -/
def rMarshalListElems (fuel : Nat) (conv : String → String) (m : MState)
    (total : Nat) (xs : List GoVal) (i : Nat) : Except GoErr MState :=
  match fuel with
  | 0 => .error (.unmodeled "fuel")
  | fuel + 1 =>
    match xs with
    | [] =>
      -- toml MarshalListPost
      let lom := m.listofmap.headD false
      let m := { m with listofmap := m.listofmap.tail }
      if !lom then
        let m := { m with listdepth := m.listdepth - 1 }
        let m := if m.valdepth == 1 then writeIndentM m (depthOf m 0 + m.listdepth) else m
        .ok (wrS m "]")
      else .ok m
    | x :: rest =>
      -- toml MarshalListElem
      let lom := m.listofmap.headD false
      let m :=
        if !lom then
          if m.valdepth == 1 then writeIndentM m (depthOf m 0 + m.listdepth) else m
        else
          let m := if !m.first then { wrS m "\n" with first := false } else m
          let m := writeIndentM m (depthOf m 1)
          let m := wrS m "[["
          let m := writeKeyPathM m m.path
          let m := wrS m "]]\n"
          { m with curdepth := m.curdepth + 1 }
      match rMarshal fuel conv m x with
      | .error e => .error e
      | .ok m =>
        -- toml MarshalListElemPost
        let m :=
          if !lom then
            let m := if m.valdepth == 1 || i != total - 1 then wrS m "," else m
            if m.valdepth == 1 then wrS m "\n" else wrS m " "
          else { m with curdepth := m.curdepth - 1 }
        rMarshalListElems fuel conv m total rest (i + 1)

/-- The entry loop shared by the map and struct branches, ending with
MarshalMapPost. -/
def rMarshalMapEntries (fuel : Nat) (conv : String → String) (m : MState)
    (mvLen : Nat) (kvs : List MapEntry) (i : Nat) : Except GoErr MState :=
  match fuel with
  | 0 => .error (.unmodeled "fuel")
  | fuel + 1 =>
    match kvs with
    | [] =>
      -- toml MarshalMapPost
      if m.inlined then .ok (wrS m "\x7d") else .ok m
    | kv :: rest =>
      if entryIsNil kv.value then
        rMarshalMapEntries fuel conv m mvLen rest (i + 1)
      else
        let m := marshalMapKeyCb m kv
        let m := marshalMapValueCb m kv
        match rMarshal fuel conv m kv.value with
        | .error e => .error e
        | .ok m =>
          let m := marshalMapValuePostCb m mvLen kv i
          rMarshalMapEntries fuel conv m mvLen rest (i + 1)

end

mutual

/-- Weight of a value, to provision marshaling fuel. -/
def GoVal.weight : GoVal → Nat
  | .vslice _ _ xs => 1 + GoVal.weightList xs
  | .vmap _ _ entries => 1 + GoVal.weightFields entries
  | .vstruct fields => 1 + GoVal.weightFields fields
  | .viface (Option.some inner) => 1 + GoVal.weight inner
  | _ => 1

def GoVal.weightList : List GoVal → Nat
  | [] => 0
  | x :: rest => GoVal.weight x + GoVal.weightList rest

def GoVal.weightFields : List (String × GoVal) → Nat
  | [] => 0
  | (_, v) :: rest => GoVal.weight v + GoVal.weightFields rest

end

/-- toml Encoder.Encode for a typed value: reflectutil.Marshal with the
snake_case default convention, from the initial marshaler state. -/
def tomlMarshalModel (v : GoVal) : Except GoErr String :=
  match rMarshal (8 * v.weight + 64) snakeCaseFormat {} v with
  | .error e => .error e
  | .ok m => .ok m.out

/-- The (key value, value node value) pairs of the root object of a
parse result, in sibling order. -/
def objectKeyBindings : Except PErr Node → Option (List (NodeValue × Option NodeValue))
  | .error _ => Option.none
  | .ok doc =>
    match doc.child with
    | Option.some rv =>
      Option.some ((nodeList rv.child).map (fun k => (k.value, k.child.map Node.value)))
    | Option.none => Option.none

/-- json5 Decode: parse, then Unmarshal of root.Child into the
destination (encutil.UnmarshalerBase.Decode without the environment
overlay, which json5 documents of the claims do not enable). -/
def json5DecodeModel (dest : GoVal) (toks : List Token) (conv : String → String) :
    Option (Except GoErr GoVal) :=
  match json5Parse toks with
  | .error _ => Option.none
  | .ok doc =>
    match doc.child with
    | Option.none => Option.none
    | Option.some rv => Option.some (UnmarshalModel dest rv conv)

/-- Tokens of the JSON5 document "{a: 1, a: 2}". -/
def toksJson5Dup : List Token := layout
  [(.lbrace, "\x7b", .none), (.identifier, "a", .str "a"), (.colon, ":", .none),
   (.whitespace, " ", .none), (.number, "1", .num (.intc 1)),
   (.comma, ",", .none), (.whitespace, " ", .none),
   (.identifier, "a", .str "a"), (.colon, ":", .none),
   (.whitespace, " ", .none), (.number, "2", .num (.intc 2)),
   (.rbrace, "\x7d", .none)]

/-- toml Decode for a typed destination: parse, then Unmarshal of
root.Child into the destination with the snake_case default convention
(encutil.UnmarshalerBase.Decode without the environment overlay). -/
def tomlDecodeModel (dest : GoVal) (toks : List Token) : Option (Except GoErr GoVal) :=
  match tomlParse toks with
  | .error _ => Option.none
  | .ok doc =>
    match doc.child with
    | Option.none => Option.none
    | Option.some rv => Option.some (UnmarshalModel dest rv snakeCaseFormat)

/-- 2^100, a big.Int magnitude exceeding the 64-bit range. -/
def nBig : Int := 1267650600228229401496703205376

/-- Tokens of the TOML document "big = 2^100\n" (the exact lexing of the
fresh-mode encoder output for a struct with one big.Int field Big). -/
def toksBigC2 : List Token := layout
  [(.identifier, "big", .str "big"), (.whitespace, " ", .none), (.equal, "=", .none),
   (.whitespace, " ", .none),
   (.number, "1267650600228229401496703205376", .num (.intc nBig)), (.newline, "\n", .none)]

/-- Tokens of the TOML document "s = \x22v\x22\n". -/
def toksStrC2 : List Token := layout
  [(.identifier, "s", .str "s"), (.whitespace, " ", .none), (.equal, "=", .none),
   (.whitespace, " ", .none), (.str, "\"v\"", .str "v"), (.newline, "\n", .none)]

/-- Tokens of the TOML document "b = true\n". -/
def toksBoolC2 : List Token := layout
  [(.identifier, "b", .str "b"), (.whitespace, " ", .none), (.equal, "=", .none),
   (.whitespace, " ", .none), (.bool, "true", .bool true), (.newline, "\n", .none)]

/-- Tokens of the multi-line TOML list document the fresh-mode encoder
produces for a struct with one field L of type list of int64. -/
def toksListC2 : List Token := layout
  [(.identifier, "l", .str "l"), (.whitespace, " ", .none), (.equal, "=", .none),
   (.whitespace, " ", .none), (.lsquare, "[", .none), (.newline, "\n", .none),
   (.whitespace, "  ", .none), (.number, "1", .num (.intc 1)), (.comma, ",", .none),
   (.newline, "\n", .none), (.whitespace, "  ", .none), (.number, "2", .num (.intc 2)),
   (.comma, ",", .none), (.newline, "\n", .none), (.rsquare, "]", .none),
   (.newline, "\n", .none)]

/-- Tokens of the TOML document "l = []\n", the encoder output for an
empty (non-nil) slice field. -/
def toksEmptyC2 : List Token := layout
  [(.identifier, "l", .str "l"), (.whitespace, " ", .none), (.equal, "=", .none),
   (.whitespace, " ", .none), (.lsquare, "[", .none), (.rsquare, "]", .none),
   (.newline, "\n", .none)]

/-- strconv.ParseBool. -/
def parseBool (s : String) : Option Bool :=
  if s = "1" || s = "t" || s = "T" || s = "TRUE" || s = "true" || s = "True" then
    Option.some true
  else if s = "0" || s = "f" || s = "F" || s = "FALSE" || s = "false" || s = "False" then
    Option.some false
  else Option.none

/-- A run of decimal digits to a natural number; none on an empty run
or a non-digit character. -/
def digitsToNat : List Char → Option Nat → Option Nat
  | [], acc => acc
  | c :: cs, acc =>
    if ('0' ≤ c) && (c ≤ '9') then
      digitsToNat cs (Option.some ((acc.getD 0) * 10 + (c.toNat - '0'.toNat)))
    else Option.none

/-- strconv.ParseInt with base 0 and bit size 64, on decimal input
(integer base prefixes and digit underscores are outside the modeled
universe; Go would accept them, the claims never use them).  none
models a non-nil error (syntax or range). -/
def parseInt64 (s : String) : Option Int :=
  let parse : List Char → Bool → Option Int := fun ds neg =>
    match digitsToNat ds Option.none with
    | Option.none => Option.none
    | Option.some n =>
      let v : Int := if neg then -(n : Int) else (n : Int)
      if v < -(2 ^ 63) || 2 ^ 63 - 1 < v then Option.none else Option.some v
  match s.data with
  | '-' :: rest => parse rest true
  | '+' :: rest => parse rest false
  | ds => parse ds false

/-- strconv.ParseUint with base 0 and bit size 64, decimal input. -/
def parseUint64 (s : String) : Option Int :=
  match digitsToNat s.data Option.none with
  | Option.none => Option.none
  | Option.some n =>
    if (n : Int) ≤ 2 ^ 64 - 1 then Option.some (n : Int) else Option.none

/-- reflectutil.UnmarshalText on the modeled universe.  No modeled type
implements TextUnmarshaler except the big types (big.Int, big.Rat and
big.Float have UnmarshalText through their pointer receivers), which no
claim exercises under the overlay; []byte is absent.  The kind switch
decides: bool/int/uint parse the text, string stores it, an interface
destination stores the string value itself.  Returns (handled, result):
handled=false means the kind has no text coercion and the caller falls
through. -/
def unmarshalTextModel (dst : GoVal) (value : String) : Bool × Except GoErr GoVal :=
  match dst with
  | .vbool _ =>
    match parseBool value with
    | Option.some b => (true, .ok (.vbool b))
    | Option.none => (true, .error (.typeErr "invalid syntax"))
  | .vint w _ =>
    match parseInt64 value with
    | Option.some v => (true, .ok (.vint w (wrapSigned w v)))
    | Option.none => (true, .error (.typeErr "invalid syntax"))
  | .vuint w _ =>
    match parseUint64 value with
    | Option.some v => (true, .ok (.vuint w (wrapUnsigned w v)))
    | Option.none => (true, .error (.typeErr "invalid syntax"))
  | .vstring _ => (true, .ok (.vstring value))
  | .viface _ => (true, .ok (.viface (Option.some (.vstring value))))
  | .vbigInt _ => (true, .error (.unmodeled "big TextUnmarshaler"))
  | .vbigRat _ => (true, .error (.unmodeled "big TextUnmarshaler"))
  | .vbigFloat _ => (true, .error (.unmodeled "big TextUnmarshaler"))
  | _ => (false, .ok dst)

/-- strings.Split on a one-character separator (os.PathListSeparator is
the colon on this platform); the second argument accumulates the
current field reversed. -/
def splitOnChar (sep : Char) : List Char → List Char → List String
  | [], cur => [String.mk cur.reverse]
  | c :: cs, cur =>
    if c = sep then String.mk cur.reverse :: splitOnChar sep cs []
    else splitOnChar sep cs (c :: cur)

/-- The element loop of the slice branch of PopulateFromEnv: each
element is text-coerced from its part of the split value.  The source
indexes the split list with the element index, so a split list shorter
than the slice panics. -/
def populateSliceElems : List GoVal → List String → Except GoErr (List GoVal)
  | [], _ => .ok []
  | _ :: _, [] => .error (.panic "index out of range")
  | v :: vs, s :: ss =>
    match unmarshalTextModel v s with
    | (false, _) => .error (.typeErr "cannot be populated from text")
    | (true, .error e) => .error e
    | (true, .ok v2) =>
      match populateSliceElems vs ss with
      | .error e => .error e
      | .ok vs2 => .ok (v2 :: vs2)

/-- The slice branch of PopulateFromEnv: if the split list is longer
than the slice, a fresh zero slice of the split length replaces it. -/
def populateSlice (elemT : GoType) (isNil : Bool) (xs : List GoVal)
    (parts : List String) : Except GoErr (Bool × List GoVal) :=
  if xs.length < parts.length then
    match populateSliceElems (parts.map (fun _ => zeroVal elemT)) parts with
    | .error e => .error e
    | .ok xs2 => .ok (false, xs2)
  else
    match populateSliceElems xs parts with
    | .error e => .error e
    | .ok xs2 => .ok (isNil, xs2)

mutual

/-- reflectutil.PopulateFromEnv (the engine whose env names are a
single prefix string, matching the EnvPrefix string option): look the
name up, text-coerce the value into the destination when the automatic
overlay is on and the variable is defined, and otherwise dispatch on
the kind (slices split the value on the path list separator, structs
recurse per field with PREFIX_FIELDNAME keys).  Pointers are absent
from the modeled universe.  A non-nil interface is unwrapped by the
source into its dynamic value, which is not addressable, so the text
coercion on it panics inside reflect; the map branch is outside the
modeled universe (no claim populates map entries from the
environment). -/
def populateFromEnv : Nat → GoVal → Bool → String → (String → Option String) →
    Except GoErr (Bool × GoVal)
  | 0, _, _, _, _ => .error (.unmodeled "fuel")
  | fuel + 1, v, automatic, name, lookup =>
    match v with
    | .viface (Option.some _) => .error (.panic "unaddressable value")
    | _ =>
      let value := (lookup name).getD ""
      let defined := (lookup name).isSome
      let att : Option (Except GoErr GoVal) :=
        if automatic && defined then
          match unmarshalTextModel v value with
          | (true, r) => Option.some r
          | (false, _) => Option.none
        else Option.none
      match att with
      | Option.some (.error e) => .error e
      | Option.some (.ok v2) => .ok (true, v2)
      | Option.none =>
        match v with
        | .vslice elemT isNil xs =>
          if defined then
            match populateSlice elemT isNil xs (splitOnChar ':' value.data []) with
            | .error e => .error e
            | .ok (isNil2, xs2) => .ok (false, .vslice elemT isNil2 xs2)
          else .ok (false, v)
        | .vmap _ _ _ => .error (.unmodeled "map env population")
        | .vstruct fields =>
          match populateFields fuel fields automatic name lookup with
          | .error e => .error e
          | .ok (chg, fields2) => .ok (chg, .vstruct fields2)
        | _ => .ok (false, v)

/-- The struct field loop of PopulateFromEnv: the env key of a field is
the SCREAMING_SNAKE_CASE field name, prefixed with the current name and
an underscore when the name is nonempty (field env-tag overrides are
absent from the modeled universe). -/
def populateFields : Nat → List (String × GoVal) → Bool → String →
    (String → Option String) → Except GoErr (Bool × List (String × GoVal))
  | 0, _, _, _, _ => .error (.unmodeled "fuel")
  | fuel + 1, fields, automatic, name, lookup =>
    match fields with
    | [] => .ok (false, [])
    | (fname, fval) :: rest =>
      let key0 := screamingSnakeCaseFormat fname
      let key := if name ≠ "" then name ++ "_" ++ key0 else key0
      match populateFromEnv fuel fval automatic key lookup with
      | .error e => .error e
      | .ok (ok1, fval2) =>
        match populateFields fuel rest automatic name lookup with
        | .error e => .error e
        | .ok (chg, rest2) => .ok (ok1 || chg, (fname, fval2) :: rest2)

end

/-- encutil UnmarshalerBase.Decode for a TOML input: parse, structural
unmarshal of root.Child into the destination, then the environment
overlay over the decoded value.  The overlay runs after the structural
decode, so an environment value overwrites the file value. -/
def tomlDecodeEnvModel (dest : GoVal) (toks : List Token) (automatic : Bool)
    (envPrefix : String) (lookup : String → Option String) :
    Option (Except GoErr GoVal) :=
  match tomlParse toks with
  | .error _ => Option.none
  | .ok doc =>
    match doc.child with
    | Option.none => Option.none
    | Option.some rv =>
      Option.some
        (match UnmarshalModel dest rv snakeCaseFormat with
         | .error e => .error e
         | .ok v =>
           match populateFromEnv (8 * v.weight + 8) v automatic envPrefix lookup with
           | .error e => .error e
           | .ok (_, v2) => .ok v2)

/-- The lookup function of the C5 scenario: the environment defines
exactly PRE_FIELD=env-value. -/
def lookupC5 : String → Option String :=
  fun k => if k = "PRE_FIELD" then Option.some "env-value" else Option.none

/-- Tokens of the TOML document binding the field to the file value. -/
def toksC5 : List Token := layout
  [(.identifier, "field", .str "field"), (.whitespace, " ", .none), (.equal, "=", .none),
   (.whitespace, " ", .none), (.str, "\"file-value\"", .str "file-value"),
   (.newline, "\n", .none)]

end Boa

namespace Boa

/-- strLt is asymmetric. -/
theorem strLt_asymm : ∀ (x y : List Char), strLt x y = true → strLt y x = false := by
  intro x
  induction x with
  | nil =>
    intro y h
    cases y with
    | nil => exact absurd h (by simp [strLt])
    | cons b bs => simp [strLt]
  | cons a as ih =>
    intro y h
    cases y with
    | nil => exact absurd h (by simp [strLt])
    | cons b bs =>
      simp only [strLt] at h ⊢
      by_cases hab : a < b
      · rw [if_neg (lt_asymm hab), if_pos hab]
      · rw [if_neg hab] at h
        by_cases hba : b < a
        · rw [if_pos hba] at h
          exact absurd h (by simp)
        · rw [if_neg hba] at h
          rw [if_neg hba, if_neg hab]
          exact ih bs h

/-- strLt is total: a strict pair bounds every middle list on one side. -/
theorem strLt_lt_or_lt : ∀ (x y z : List Char),
    strLt x z = true → strLt x y = true ∨ strLt y z = true := by
  intro x
  induction x with
  | nil =>
    intro y z h
    cases z with
    | nil => exact absurd h (by simp [strLt])
    | cons c cs =>
      cases y with
      | nil => exact Or.inr (by simp [strLt])
      | cons b bs => exact Or.inl (by simp [strLt])
  | cons a as ih =>
    intro y z h
    cases z with
    | nil => exact absurd h (by simp [strLt])
    | cons c cs =>
      cases y with
      | nil => exact Or.inr (by simp [strLt])
      | cons b bs =>
        simp only [strLt] at h ⊢
        by_cases hac : a < c
        · by_cases hab : a < b
          · exact Or.inl (by rw [if_pos hab])
          · have hbc : b < c := lt_of_le_of_lt (le_of_not_lt hab) hac
            exact Or.inr (by rw [if_pos hbc])
        · by_cases hca : c < a
          · rw [if_neg hac, if_pos hca] at h
            exact absurd h (by simp)
          · rw [if_neg hac, if_neg hca] at h
            by_cases hab : a < b
            · exact Or.inl (by rw [if_pos hab])
            · by_cases hbc : b < c
              · exact Or.inr (by rw [if_pos hbc])
              · have hac' : a = c := le_antisymm (le_of_not_lt hca) (le_of_not_lt hac)
                have hba : ¬ b < a := by
                  rw [hac']
                  exact hbc
                have hcb : ¬ c < b := by
                  rw [← hac']
                  exact hab
                rcases ih bs cs h with h' | h'
                · exact Or.inl (by rw [if_neg hab, if_neg hba, h'])
                · exact Or.inr (by rw [if_neg hbc, if_neg hcb, h'])

/-- Not-strictly-greater is transitive. -/
theorem strLt_neg_trans {x y z : List Char} (hxy : strLt y x = false)
    (hyz : strLt z y = false) : strLt z x = false := by
  cases h : strLt z x
  · rfl
  · rcases strLt_lt_or_lt z y x h with h' | h'
    · rw [hyz] at h'
      exact absurd h' (by simp)
    · rw [hxy] at h'
      exact absurd h' (by simp)

/-- stableInsert produces a permutation of consing the element. -/
theorem stableInsert_perm (less : α → α → Bool) (x : α) (l : List α) :
    List.Perm (stableInsert less x l) (x :: l) := by
  induction l with
  | nil => exact List.Perm.refl _
  | cons y ys ih =>
    simp only [stableInsert]
    by_cases hc : less x y = true
    · rw [if_pos hc]
    · rw [if_neg hc]
      exact (ih.cons y).trans (List.Perm.swap x y ys)

/-- The foldl of sliceStable permutes the accumulator plus the input. -/
theorem sliceStable_foldl_perm (less : α → α → Bool) (l acc : List α) :
    List.Perm (l.foldl (fun acc x => stableInsert less x acc) acc) (acc ++ l) := by
  induction l generalizing acc with
  | nil => simp
  | cons x xs ih =>
    rw [List.foldl_cons]
    refine (ih _).trans ?_
    refine (List.Perm.append_right xs (stableInsert_perm less x acc)).trans ?_
    exact List.perm_middle.symm

/-- sliceStable is a permutation. -/
theorem sliceStable_perm (less : α → α → Bool) (l : List α) :
    List.Perm (sliceStable less l) l := by
  simpa [sliceStable] using sliceStable_foldl_perm less l []

/-- Inserting a value-typed entry with the partition comparator places
it right after the value-typed prefix. -/
theorem stableInsert_val (x : MapEntry) (hx : isValueType x.value = true)
    (V T : List MapEntry)
    (hV : ∀ e ∈ V, isValueType e.value = true)
    (hT : ∀ e ∈ T, isValueType e.value = false) :
    stableInsert partitionLess x (V ++ T) = V ++ x :: T := by
  induction V with
  | nil =>
    cases T with
    | nil => rfl
    | cons y ys =>
      have hy : isValueType y.value = false := hT y (by simp)
      simp only [List.nil_append, stableInsert]
      rw [if_pos]
      simp [partitionLess, hx, hy]
  | cons v vs ih =>
    have hv : isValueType v.value = true := hV v (by simp)
    have hless : ¬ partitionLess x v = true := by
      simp [partitionLess, hx, hv]
    show stableInsert partitionLess x (v :: (vs ++ T)) = v :: (vs ++ x :: T)
    simp only [stableInsert]
    rw [if_neg hless]
    exact congrArg (v :: ·) (ih (fun e he => hV e (by simp [he])))

/-- Inserting a table-typed entry with the partition comparator appends
it at the end. -/
theorem stableInsert_tbl (x : MapEntry) (hx : isValueType x.value = false)
    (l : List MapEntry) :
    stableInsert partitionLess x l = l ++ [x] := by
  induction l with
  | nil => rfl
  | cons y ys ih =>
    simp only [stableInsert]
    rw [if_neg, ih]
    · rfl
    · cases hy : isValueType y.value <;> simp [partitionLess, hx, hy]

/-- The foldl of the value-first partition, with the accumulator split
into its value-typed prefix and table-typed suffix. -/
theorem sliceStable_partition_aux (l : List MapEntry) :
    ∀ (V T : List MapEntry),
    (∀ e ∈ V, isValueType e.value = true) →
    (∀ e ∈ T, isValueType e.value = false) →
    l.foldl (fun acc x => stableInsert partitionLess x acc) (V ++ T)
      = (V ++ l.filter (fun e => isValueType e.value))
        ++ (T ++ l.filter (fun e => !isValueType e.value)) := by
  induction l with
  | nil => intro V T _ _; simp
  | cons x xs ih =>
    intro V T hV hT
    rw [List.foldl_cons]
    by_cases hx : isValueType x.value = true
    · rw [stableInsert_val x hx V T hV hT]
      have hVx : ∀ e ∈ V ++ [x], isValueType e.value = true := by
        intro e he
        rcases List.mem_append.1 he with h | h
        · exact hV e h
        · simp at h
          subst h
          exact hx
      rw [show V ++ x :: T = (V ++ [x]) ++ T from by simp]
      rw [ih (V ++ [x]) T hVx hT]
      simp [List.filter_cons, hx]
    · have hx' : isValueType x.value = false := by
        cases h : isValueType x.value
        · rfl
        · exact absurd h hx
      rw [show stableInsert partitionLess x (V ++ T) = V ++ (T ++ [x]) from by
        rw [stableInsert_tbl x hx']; simp]
      have hTx : ∀ e ∈ T ++ [x], isValueType e.value = false := by
        intro e he
        rcases List.mem_append.1 he with h | h
        · exact hT e h
        · simp at h
          subst h
          exact hx'
      rw [ih V (T ++ [x]) hV hTx]
      simp [List.filter_cons, hx']

/-- The value-first stable partition of MarshalMap is exactly: keep the
value-typed entries in order, then the table-typed entries in order. -/
theorem tomlPrepareKvs_partition (kvs : List MapEntry) :
    tomlPrepareKvs kvs
      = kvs.filter (fun e => isValueType e.value)
        ++ kvs.filter (fun e => !isValueType e.value) := by
  have h := sliceStable_partition_aux kvs [] [] (by simp) (by simp)
  simpa [tomlPrepareKvs, sliceStable] using h

/-- Stable insertion preserves sortedness for a total comparator. -/
theorem stableInsert_sorted {r : α → α → Prop}
    (htrans : ∀ a b c, r a b → r b c → r a c)
    (less : α → α → Bool)
    (hTr : ∀ a b, less a b = true → r a b)
    (hFa : ∀ a b, less a b = false → r b a)
    (x : α) : ∀ (l : List α), l.Pairwise r →
    (stableInsert less x l).Pairwise r := by
  intro l
  induction l with
  | nil => intro _; simp [stableInsert]
  | cons y ys ih =>
    intro hl
    rw [List.pairwise_cons] at hl
    obtain ⟨hy, hys⟩ := hl
    simp only [stableInsert]
    by_cases hc : less x y = true
    · rw [if_pos hc]
      have hxy : r x y := hTr _ _ hc
      refine List.Pairwise.cons ?_ (List.Pairwise.cons hy hys)
      intro z hz
      rcases List.mem_cons.1 hz with rfl | hz'
      · exact hxy
      · exact htrans _ _ _ hxy (hy z hz')
    · rw [if_neg hc]
      have hc' : less x y = false := by
        cases h : less x y
        · rfl
        · exact absurd h hc
      refine List.Pairwise.cons ?_ (ih hys)
      intro z hz
      have hz2 : z ∈ x :: ys := (stableInsert_perm less x ys).mem_iff.1 hz
      rcases List.mem_cons.1 hz2 with rfl | hz'
      · exact hFa _ _ hc'
      · exact hy z hz'

/-- sliceStable sorts with respect to a total comparator. -/
theorem sliceStable_sorted {r : α → α → Prop}
    (htrans : ∀ a b c, r a b → r b c → r a c)
    (less : α → α → Bool)
    (hTr : ∀ a b, less a b = true → r a b)
    (hFa : ∀ a b, less a b = false → r b a)
    (l : List α) : (sliceStable less l).Pairwise r := by
  suffices h : ∀ (l acc : List α), acc.Pairwise r →
      (l.foldl (fun acc x => stableInsert less x acc) acc).Pairwise r from
    h l [] (by simp)
  intro l
  induction l with
  | nil =>
    intro acc h
    simpa using h
  | cons x xs ih =>
    intro acc h
    rw [List.foldl_cons]
    exact ih _ (stableInsert_sorted htrans less hTr hFa x acc h)

/-- The sorted kvs of the map branch are sorted by key: no later key is
lexicographically less than an earlier one. -/
theorem mapKvs_sorted (entries : List (String × GoVal)) :
    (mapKvs entries).Pairwise (fun a b => strLt b.key.data a.key.data = false) := by
  refine sliceStable_sorted ?_ byKeyLess ?_ ?_ _
  · exact fun a b c hab hbc => strLt_neg_trans hab hbc
  · intro a b h
    exact strLt_asymm _ _ h
  · intro a b h
    exact h

end Boa

open Boa in
/-- C9, counterexample: for the JSON5 document "{a: 1, a: 2}" bound to a
map destination (map[string]int64), the first occurrence of a wins, not
the last: the bound map is {a: 1}.  In the map key loop of unmarshal an
already-present key makes mval valid, so set is false and the re-bound
value is never stored back with SetMapIndex.  This refutes the claim
that the last occurrence's value wins when the object is bound to a
destination. -/
theorem json5_duplicate_key_map_first_wins :
    json5DecodeModel (.vmap (.tint 64) true []) toksJson5Dup camelCaseFormat =
      Option.some (.ok (.vmap (.tint 64) false [("a", .vint 64 1)])) ∧
    objectKeyBindings (json5Parse toksJson5Dup) =
      Option.some
        [(.str "a", Option.some (.num (.intc 1))),
         (.str "a", Option.some (.num (.intc 2)))] := by
  refine ⟨rfl, rfl⟩

open Boa in
/-- C9, amended: the JSON5 parser performs no duplicate-key detection: a
document whose object repeats the same key parses successfully and both
occurrences are kept as sibling key nodes in the parse tree, as shown
for "{a: 1, a: 2}".  When that object is bound to a struct destination,
the later occurrence binds the same field again, so the last value
wins; when it is bound to a map destination, the value bound for the
first occurrence is retained and the re-bound value for the duplicate
key is not written back. -/
theorem json5_no_duplicate_key_detection :
    objectKeyBindings (json5Parse toksJson5Dup) =
      Option.some
        [(.str "a", Option.some (.num (.intc 1))),
         (.str "a", Option.some (.num (.intc 2)))] ∧
    json5DecodeModel (.vstruct [("A", .vint 64 0)]) toksJson5Dup camelCaseFormat =
      Option.some (.ok (.vstruct [("A", .vint 64 2)])) ∧
    json5DecodeModel (.vmap (.tint 64) true []) toksJson5Dup camelCaseFormat =
      Option.some (.ok (.vmap (.tint 64) false [("a", .vint 64 1)])) := by
  refine ⟨rfl, rfl, rfl⟩

open Boa in
/-- C4, counterexample: unmarshaling the number 300 into an int8
destination does not fail; SetScalar checks only that the value fits in
an int64 and reflect.Value.SetInt then truncates, silently storing 44.
This refutes the claim that the narrowing fails with an overflow error
whenever the value does not fit the destination exactly. -/
theorem setscalar_int8_truncates_silently :
    SetScalar (.vint 8 0) (.num (.intc 300)) .number = (true, .ok (.vint 8 44)) ∧
    ((300 : Int) ≠ 44) := by
  refine ⟨rfl, by decide⟩

open Boa in
/-- C4, amended: narrowing a number node into a fixed-width signed
(resp. unsigned) integer destination fails with the overflow error
exactly when the value does not fit in int64 (resp. uint64); a value
that fits the 64-bit form is stored truncated to the destination width
(hence exactly whenever it fits the destination); and the
arbitrary-precision destinations big.Int, big.Rat and big.Float store
the value exactly without failing (big.Float shown for integer values,
big.Rat also for rationals). -/
theorem setscalar_narrowing_amended :
    (∀ (w : Nat) (v : Int),
      SetScalar (.vint w 0) (.num (.intc v)) .number =
        if int64Fits v then (true, .ok (.vint w (wrapSigned w v)))
        else (true, .error .doesNotFit)) ∧
    (∀ (w : Nat) (v : Int),
      SetScalar (.vuint w 0) (.num (.intc v)) .number =
        if uint64Fits v then (true, .ok (.vuint w (wrapUnsigned w v)))
        else (true, .error .doesNotFit)) ∧
    (∀ v : Int,
      SetScalar (.vbigInt 0) (.num (.intc v)) .number = (true, .ok (.vbigInt v))) ∧
    (∀ v : Int,
      SetScalar (.vbigRat 0) (.num (.intc v)) .number = (true, .ok (.vbigRat v))) ∧
    (∀ q : Rat,
      SetScalar (.vbigRat 0) (.num (.ratc q)) .number = (true, .ok (.vbigRat q))) ∧
    (∀ v : Int,
      SetScalar (.vbigFloat 0) (.num (.intc v)) .number = (true, .ok (.vbigFloat v))) := by
  refine ⟨fun w v => rfl, fun w v => rfl, fun v => rfl, fun v => rfl, fun q => rfl, fun v => rfl⟩

open Boa in
/-- C3: parsing "a = 1\na = 2" fails with a DuplicateKeyError for key a
whose recorded position is the line-1 definition (1:1); parsing
"[a]\n[a]" fails with a DuplicateKeyError of kind table pointing at the
first definition on line 1; parsing "[[a]]\n[[a]]" succeeds, and the
root map holds exactly the two key nodes a[0] and a[1], the parse-tree
representation of a two-element array under key a. -/
theorem toml_duplicate_key_detection :
    tomlParse toksDupAssign =
      .error (.duplicate
        { kind := "key", pfix := [], path := [.str "a"]
          position := { line := 1, column := 1 } }) ∧
    tomlParse toksDupTable =
      .error (.duplicate
        { kind := "table", pfix := [], path := [.str "a"]
          position := { line := 1, column := 2 } }) ∧
    rootKeyPaths (tomlParse toksArrayTables) =
      Option.some [[.str "a", .idx 0], [.str "a", .idx 1]] := by
  refine ⟨rfl, rfl, rfl⟩

open Boa in
/-- C10: parsing the inline table in "a = { b = 1, b = 2 }" fails with a
DuplicateKeyError of kind key for path b carrying the position (1:7) of
the first occurrence of b; and the check is scoped to the single inline
table being parsed: in "x = { k = 1 }\ny = { k = 2 }\nk = 3" the key k
recurs across two distinct inline tables and at top level, and the
document parses successfully, because each parser.Object call creates a
fresh seen set independent of the top-level table registry. -/
theorem toml_inline_table_duplicate_key :
    tomlParse toksInlineDup =
      .error (.duplicate
        { kind := "key", pfix := [], path := [.str "b"]
          position := { line := 1, column := 7 } }) ∧
    (tomlParse toksInlineScoped).isOk = true := by
  refine ⟨rfl, rfl⟩

open Boa in
/-- C1, evaluated at the failing input (status: code bug). For the TOML
document "a = 1\n" the parser stores the = token in the Suffix list of
the key node and Node.Marshal in replay mode writes a node Suffix only
after the child subtree, so the re-encoded document is "a  1=\n", not
the original "a = 1\n": replay re-encoding is not byte-identical, which
contradicts the re-encode expectation of the standard-suite test of the
package. -/
theorem toml_replay_not_byte_identical :
    concatRaw toksSimpleAssign = "a = 1\n" ∧
    replayOf (tomlParse toksSimpleAssign) = Option.some "a  1=\n" ∧
    replayOf (tomlParse toksSimpleAssign) ≠ Option.some (concatRaw toksSimpleAssign) := by
  refine ⟨rfl, rfl, by decide⟩

/-- C8: for a field literally named FirstName, the kebab-case naming
convention resolves the document key first-name, and the camelCase
naming convention resolves the document key firstName. -/
theorem naming_resolution_first_name :
    Boa.kebabCaseFormat "FirstName" = "first-name" ∧
    Boa.camelCaseFormat "FirstName" = "firstName" := by
  constructor <;> rfl

open Boa in
/-- C2, counterexample: the TOML value round trip is not deep equality
for every supported destination value.  A struct whose slice field holds
an empty but non-nil slice marshals to "l = []\n"; unmarshaling that
document back into a fresh value of the same type leaves the slice at
its zero value, a nil slice, and a nil slice is not deeply equal to an
empty non-nil slice (reflect.DeepEqual distinguishes them). -/
theorem toml_value_roundtrip_not_exact :
    tomlMarshalModel (.vstruct [("L", .vslice (.tint 64) false [])])
      = .ok (concatRaw toksEmptyC2)
    ∧ tomlDecodeModel (zeroVal (.tstruct [("L", .tslice (.tint 64))])) toksEmptyC2
      = Option.some (.ok (.vstruct [("L", .vslice (.tint 64) true [])]))
    ∧ (GoVal.vstruct [("L", .vslice (.tint 64) true [])]
        ≠ GoVal.vstruct [("L", .vslice (.tint 64) false [])]) := by
  refine ⟨rfl, rfl, ?_⟩
  intro h
  simp only [GoVal.vstruct.injEq, List.cons.injEq, Prod.mk.injEq, GoVal.vslice.injEq] at h
  exact absurd h.1.2.2.1 (by decide)

open Boa in
/-- C2, amended: the TOML value round trip is exact for big-integer
magnitudes beyond 64 bits, strings, booleans and non-empty slices: for
each of the four one-field structs below, fresh-mode marshaling yields
exactly the raw text of the stated token list, and decoding that token
list into a fresh zero value of the same type returns the original
value. -/
theorem toml_value_roundtrip_amended :
    (tomlMarshalModel (.vstruct [("Big", .vbigInt nBig)])
       = .ok (concatRaw toksBigC2)
     ∧ tomlDecodeModel (zeroVal (.tstruct [("Big", .tbigInt)])) toksBigC2
       = Option.some (.ok (.vstruct [("Big", .vbigInt nBig)])))
    ∧ (tomlMarshalModel (.vstruct [("S", .vstring "v")])
       = .ok (concatRaw toksStrC2)
     ∧ tomlDecodeModel (zeroVal (.tstruct [("S", .tstring)])) toksStrC2
       = Option.some (.ok (.vstruct [("S", .vstring "v")])))
    ∧ (tomlMarshalModel (.vstruct [("B", .vbool true)])
       = .ok (concatRaw toksBoolC2)
     ∧ tomlDecodeModel (zeroVal (.tstruct [("B", .tbool)])) toksBoolC2
       = Option.some (.ok (.vstruct [("B", .vbool true)])))
    ∧ (tomlMarshalModel
         (.vstruct [("L", .vslice (.tint 64) false [.vint 64 1, .vint 64 2])])
       = .ok (concatRaw toksListC2)
     ∧ tomlDecodeModel (zeroVal (.tstruct [("L", .tslice (.tint 64))])) toksListC2
       = Option.some (.ok (.vstruct
           [("L", .vslice (.tint 64) false [.vint 64 1, .vint 64 2])]))) := by
  refine ⟨⟨?_, ?_⟩, ⟨?_, ?_⟩, ⟨?_, ?_⟩, ⟨?_, ?_⟩⟩ <;> rfl

open Boa in
/-- C6, counterexample: record levels are not sorted lexicographically
by rendered name.  Struct fields keep their declaration order
(walkFields / VisibleFieldsAsMapEntries); only the value-first stable
partition of MarshalMap is applied.  A struct with fields declared B
then A renders b = 1 before a = 2, even though a is lexicographically
less than b. -/
theorem toml_record_keys_not_sorted :
    tomlMarshalModel (.vstruct [("B", .vint 64 1), ("A", .vint 64 2)])
      = .ok "b = 1\na = 2\n"
    ∧ (tomlPrepareKvs (structKvs snakeCaseFormat
          [("B", GoVal.vint 64 1), ("A", GoVal.vint 64 2)])).map MapEntry.key
        = ["b", "a"]
    ∧ strLt "a".data "b".data = true := by
  refine ⟨rfl, rfl, by decide⟩

open Boa in
/-- C6, amended: at a map level the rendered key order is the
lexicographic sort of the keys followed by the stable value-first
partition: mapKvs is a permutation of the entries sorted by key (no
later key lexicographically less than an earlier one), and the prepared
kvs handed to the marshaler are exactly the value-typed entries in that
order followed by the table-typed entries in that order.  At a record
level the same partition applies, but to the fields in declaration
order with their resolved names, not sorted.  Concretely, a map with
entries inserted as z, a (a sub-table), m renders m and z sorted first
and the table a last. -/
theorem toml_key_order_amended (entries : List (String × GoVal))
    (conv : String → String) (fields : List (String × GoVal)) :
    (tomlPrepareKvs (mapKvs entries)
       = (mapKvs entries).filter (fun e => isValueType e.value)
         ++ (mapKvs entries).filter (fun e => !isValueType e.value))
    ∧ List.Perm (mapKvs entries)
        (entries.map (fun e => { key := e.1, value := e.2 }))
    ∧ (mapKvs entries).Pairwise (fun a b => strLt b.key.data a.key.data = false)
    ∧ (tomlPrepareKvs (structKvs conv fields)
       = (structKvs conv fields).filter (fun e => isValueType e.value)
         ++ (structKvs conv fields).filter (fun e => !isValueType e.value))
    ∧ structKvs conv fields
       = fields.map (fun f => { key := resolvedName conv f.1, value := f.2 })
    ∧ tomlMarshalModel
        (.vmap .tiface false
          [("z", .viface (Option.some (.vint 64 1))),
           ("a", .viface (Option.some (.vstruct [("X", .vint 64 3)]))),
           ("m", .viface (Option.some (.vint 64 9)))])
        = .ok "m = 9\nz = 1\n\n[a]\nx = 3\n" := by
  refine ⟨tomlPrepareKvs_partition _, sliceStable_perm _ _, mapKvs_sorted _,
          tomlPrepareKvs_partition _, rfl, rfl⟩

open Boa in
/-- C7: a record with one scalar field and one nested-record field
renders the scalar assignment before the table header for both
declaration orders: concretely both orders of fields S and T render
"s = 7 newline newline [t] newline x = 5 newline", and in general the
prepared kvs of a two-field struct with one value-typed and one
table-typed field are the value-typed entry first for both declaration
orders. -/
theorem toml_scalar_before_table :
    tomlMarshalModel
        (.vstruct [("S", .vint 64 7), ("T", .vstruct [("X", .vint 64 5)])])
      = .ok "s = 7\n\n[t]\nx = 5\n"
    ∧ tomlMarshalModel
        (.vstruct [("T", .vstruct [("X", .vint 64 5)]), ("S", .vint 64 7)])
      = .ok "s = 7\n\n[t]\nx = 5\n"
    ∧ (∀ (conv : String → String) (n1 n2 : String) (v1 v2 : GoVal),
        isValueType v1 = true → isValueType v2 = false →
        tomlPrepareKvs (structKvs conv [(n1, v1), (n2, v2)])
          = [{ key := resolvedName conv n1, value := v1 },
             { key := resolvedName conv n2, value := v2 }]
        ∧ tomlPrepareKvs (structKvs conv [(n2, v2), (n1, v1)])
          = [{ key := resolvedName conv n1, value := v1 },
             { key := resolvedName conv n2, value := v2 }]) := by
  refine ⟨rfl, rfl, ?_⟩
  intro conv n1 n2 v1 v2 h1 h2
  constructor
  · simp [tomlPrepareKvs, structKvs, sliceStable, stableInsert, partitionLess, h1, h2]
  · simp [tomlPrepareKvs, structKvs, sliceStable, stableInsert, partitionLess, h1, h2]

open Boa in
/-- Witness for toml_scalar_before_table: the general part applied to
the concrete scalar field S = 7 and nested-record field T. -/
theorem toml_scalar_before_table_witness :
    isValueType (GoVal.vint 64 7) = true
    ∧ isValueType (GoVal.vstruct [("X", GoVal.vint 64 5)]) = false
    ∧ tomlPrepareKvs (structKvs snakeCaseFormat
        [("T", GoVal.vstruct [("X", GoVal.vint 64 5)]), ("S", GoVal.vint 64 7)])
      = [{ key := "s", value := GoVal.vint 64 7 },
         { key := "t", value := GoVal.vstruct [("X", GoVal.vint 64 5)] }] :=
  ⟨rfl, rfl, by
    have h := (toml_scalar_before_table.2.2 snakeCaseFormat "S" "T"
      (GoVal.vint 64 7) (GoVal.vstruct [("X", GoVal.vint 64 5)]) rfl rfl).2
    exact h⟩

open Boa in
/-- C5: with the automatic environment overlay enabled and a lookup
defining PRE_FIELD=env-value, decoding a document that binds the field
to file-value yields env-value: the overlay runs after the structural
decode and its text coercion overwrites the decoded value.  Without a
defined variable, and with the overlay disabled, the file value is
kept. -/
theorem env_overlay_precedence :
    tomlDecodeEnvModel (zeroVal (.tstruct [("Field", .tstring)])) toksC5
        true "PRE" lookupC5
      = Option.some (.ok (.vstruct [("Field", .vstring "env-value")]))
    ∧ tomlDecodeEnvModel (zeroVal (.tstruct [("Field", .tstring)])) toksC5
        true "PRE" (fun _ => Option.none)
      = Option.some (.ok (.vstruct [("Field", .vstring "file-value")]))
    ∧ tomlDecodeEnvModel (zeroVal (.tstruct [("Field", .tstring)])) toksC5
        false "PRE" lookupC5
      = Option.some (.ok (.vstruct [("Field", .vstring "file-value")]))
    ∧ lookupC5 "PRE_FIELD" = Option.some "env-value" := by
  refine ⟨rfl, rfl, rfl, rfl⟩

